import Mathlib

/-!
# Source positions of `pkg/filepos/position.go`

A shallow embedding of the Go package `filepos` and theorems about it.

Conventions of the embedding:

* a Go `*Position` is an `Option Position`, `none` being the nil pointer;
* the field `lineNum *int` is an `Option Int`, `none` being the nil pointer.  The cell a
  `lineNum` points to is never shared between two `Position`s (`NewPosition` takes the
  address of its own parameter, `DeepCopy` allocates a fresh cell), so holding the value
  inside the structure loses nothing;
* a Go call that can panic returns `Except Fault _`;
* Go's `int` is the 64-bit two's complement integer: arithmetic results are reduced by
  `wrapInt`;
* a Go `string` is a Lean `String`, `len` being its number of UTF-8 bytes;
* a method that mutates its receiver returns the new value of the pointee;
* where the identity of pointers matters (what a call writes, what a copy shares), the
  functions are given a second time on an explicit memory, a `Store` of `Position` cells
  and `int` cells with addresses, under the names `Ref.SetFile`, `Ref.DeepCopy`, and so on;
  `Store.view` reads the value a pointer refers to, on which the methods above work.
-/

namespace Filepos

/-! ## Go runtime and library model -/

/-- The two ways a call can fail fatally: an explicit `panic(msg)` or the run-time panic
of dereferencing a nil pointer. -/
inductive Fault where
  | panic (msg : String)
  | nilDeref
  deriving DecidableEq, Repr

/-- Equality of call results is decidable, so that results can be computed and compared. -/
instance instDecidableEqResult {α : Type} [DecidableEq α] : DecidableEq (Except Fault α)
  | .ok a, .ok b => if h : a = b then isTrue (by rw [h]) else isFalse (fun e => h (by cases e; rfl))
  | .error a, .error b =>
    if h : a = b then isTrue (by rw [h]) else isFalse (fun e => h (by cases e; rfl))
  | .ok _, .error _ => isFalse (fun e => by cases e)
  | .error _, .ok _ => isFalse (fun e => by cases e)

/-- Largest value of Go's `int` (64-bit). -/
def maxInt : Int := 9223372036854775807

/-- Smallest value of Go's `int` (64-bit). -/
def minInt : Int := -9223372036854775808

/-- Reduction of a mathematical integer to the `int` it is stored as
(two's complement wrap-around). -/
def wrapInt (x : Int) : Int := (x + 9223372036854775808) % 18446744073709551616 - 9223372036854775808

/-- The builtin `len` on strings: the number of bytes. -/
def len (s : String) : Nat := s.utf8ByteSize

/-- The character for a decimal digit `d < 10`. -/
def digitChar (d : Nat) : Char := Char.ofNat (48 + d)

/-- The digit loop of `fmt`'s integer formatting: peel the last digit while the number
is at least ten.  The first argument bounds the number of iterations; `decDigits` passes
the number itself, which the loop never exhausts (`decDigits_lt`, `decDigits_ge`). -/
def decDigitsAux : Nat → Nat → List Char
  | 0, u => [digitChar (u % 10)]
  | fuel + 1, u =>
    if u < 10 then [digitChar u]
    else decDigitsAux fuel (u / 10) ++ [digitChar (u % 10)]

/-- Decimal digits of a natural number, most significant first. -/
def decDigits (u : Nat) : List Char := decDigitsAux u u

/-- Rendering of an `int` by the verb `%d`: a minus sign for a negative number, then the
digits of its magnitude. -/
def fmtD (n : Int) : String :=
  if n < 0 then String.mk ('-' :: decDigits n.natAbs) else String.mk (decDigits n.natAbs)

/-- Rendering of an `int` by the verb `%4d`: the `%d` rendering, padded on the left with
spaces up to a width of four characters (never truncated). -/
def fmt4D (n : Int) : String :=
  String.mk (List.replicate (4 - (fmtD n).length) ' ') ++ fmtD n

/-- Model of `strings.TrimLeft(s, " ")`: drops the leading space characters. -/
def trimLeftSpaces (s : String) : String := String.mk (s.data.dropWhile (fun c => c == ' '))

/-- Model of `strings.Repeat(" ", count)`: panics on a negative count. -/
def repeatSpace (count : Int) : Except Fault String :=
  if count < 0 then .error (.panic "strings: negative Repeat count")
  else .ok (String.mk (List.replicate count.toNat ' '))

/-- Reading of an unsigned decimal numeral: `none` unless every character is a digit. -/
def readDigits : List Char → Nat → Option Nat
  | [], acc => some acc
  | c :: cs, acc =>
    if 48 ≤ c.toNat ∧ c.toNat ≤ 57 then readDigits cs (acc * 10 + (c.toNat - 48)) else none

/-- Reading of a decimal numeral with an optional leading minus sign. -/
def readDecimal (s : String) : Option Int :=
  match s.data with
  | [] => none
  | '-' :: cs => if cs = [] then none else (readDigits cs 0).map (fun (u : Nat) => - (u : Int))
  | cs => (readDigits cs 0).map (fun (u : Nat) => (u : Int))

/-! ## The `Position` type and its methods -/

/-- The struct `Position`. -/
structure Position where
  lineNum : Option Int := none
  file : String := ""
  line : String := ""
  known : Bool := false
  fromMemory : Bool := false
  deriving DecidableEq, Repr

/-- The struct `Meta`: a comment's text and its position. -/
structure Meta where
  Data : String
  Position : Option Position
  deriving DecidableEq, Repr

/-- Function `NewPosition(lineNum)`. -/
def NewPosition (lineNum : Int) : Except Fault Position :=
  if lineNum ≤ 0 then .error (.panic "Lines are 1 based")
  else .ok { lineNum := some lineNum, known := true }

/-- Function `NewUnknownPosition()`. -/
def NewUnknownPosition : Position := {}

/-- Method `p.SetFile(file)`: the pointee after the assignment. -/
def SetFile (p : Option Position) (file : String) : Except Fault Position :=
  match p with
  | none => .error .nilDeref
  | some p => .ok { p with file := file }

/-- Method `p.SetLine(line)`: the pointee after the assignment. -/
def SetLine (p : Option Position) (line : String) : Except Fault Position :=
  match p with
  | none => .error .nilDeref
  | some p => .ok { p with line := line }

/-- Method `p.IsKnown()`. -/
def IsKnown (p : Option Position) : Bool :=
  match p with
  | none => false
  | some p => p.known

/-- Method `p.FromMemory()`. -/
def FromMemory (p : Option Position) : Except Fault Bool :=
  match p with
  | none => .error .nilDeref
  | some p => .ok p.fromMemory

/-- Method `p.LineNum()`. -/
def LineNum (p : Option Position) : Except Fault Int :=
  if !IsKnown p then .error (.panic "Position is unknown")
  else match p with
    | none => .error .nilDeref
    | some p =>
      match p.lineNum with
      | none => .error (.panic "Position was not properly initialized")
      | some n => .ok n

/-- Method `p.GetLine()`. -/
def GetLine (p : Option Position) : Except Fault String :=
  match p with
  | none => .error .nilDeref
  | some p => .ok p.line

/-- Method `p.GetFile()`. -/
def GetFile (p : Option Position) : Except Fault String :=
  match p with
  | none => .error .nilDeref
  | some p => .ok p.file

/-- Method `p.AsCompactString()`. -/
def AsCompactString (p : Option Position) : Except Fault String :=
  match p with
  | none => .error .nilDeref
  | some q =>
    let filePrefix := if len q.file > 0 then q.file ++ ":" else q.file
    if IsKnown p then do
      let n ← LineNum p
      pure (filePrefix ++ fmtD n)
    else pure (filePrefix ++ "?")

/-- Method `p.AsString()`. -/
def AsString (p : Option Position) : Except Fault String := do
  let s ← AsCompactString p
  pure ("line " ++ s)

/-- Method `p.AsIntString()`. -/
def AsIntString (p : Option Position) : Except Fault String :=
  if IsKnown p then do
    let n ← LineNum p
    pure (fmtD n)
  else pure "?"

/-- Method `p.As4DigitString()`. -/
def As4DigitString (p : Option Position) : Except Fault String :=
  if IsKnown p then do
    let n ← LineNum p
    pure (fmt4D n)
  else pure "????"

/-- Method `p.DeepCopy()`. -/
def DeepCopy (p : Option Position) : Option Position :=
  match p with
  | none => none
  | some p =>
    let newPos : Position := { file := p.file, known := p.known, line := p.line }
    match p.lineNum with
    | some lineVal => some { newPos with lineNum := some lineVal }
    | none => some newPos

/-- Method `p.DeepCopyWithLineOffset(offset)`. -/
def DeepCopyWithLineOffset (p : Option Position) (offset : Int) : Except Fault Position :=
  if !IsKnown p then .error (.panic "Position is unknown")
  else if offset < 0 then .error (.panic "Unexpected line offset")
  else match DeepCopy p with
    | none => .error .nilDeref
    | some newPos =>
      match newPos.lineNum with
      | none => .error .nilDeref
      | some n => .ok { newPos with lineNum := some (wrapInt (n + offset)) }

/-- Method `p.IsNextTo(otherPostion)`. -/
def IsNextTo (p otherPostion : Option Position) : Except Fault Bool :=
  if IsKnown p && IsKnown otherPostion then do
    let f ← GetFile p
    let g ← GetFile otherPostion
    if f = g then do
      let a ← LineNum p
      let b ← LineNum otherPostion
      let diff := wrapInt (a - b)
      if -1 ≤ diff ∧ 1 ≥ diff then pure true else pure false
    else pure false
  else pure false

/-- The loop of `PopulateAnnotationPositionFromNode` over the comments, threading the
variable `lineString`. -/
def populateLoop (annPos : Option Position) (leftPadding : Int) :
    List Meta → String → Except Fault String
  | [], lineString => .ok lineString
  | c :: cs, lineString => do
    let hit ←
      if IsKnown c.Position then do
        let s ← AsIntString c.Position
        let n ← LineNum annPos
        pure (decide (s = fmtD n))
      else pure false
    if hit then do
      let pad ← repeatSpace leftPadding
      populateLoop annPos leftPadding cs (pad ++ "#" ++ c.Data)
    else populateLoop annPos leftPadding cs lineString

/-- Function `PopulateAnnotationPositionFromNode(annPos, nodePosition, nodeComments)`: the
value of `*annPos` on return (the returned pointer is `annPos` itself).  Every read of
`nodePosition` and of the comments precedes the two writes to `*annPos`, and
`SetFile` receives the file read just before it, so this value is the same whether or not
`annPos` aliases `nodePosition` or a comment's Position. -/
def PopulateAnnotationPositionFromNode (annPos nodePosition : Option Position)
    (nodeComments : List Meta) : Except Fault Position := do
  let leftPadding : Int ←
    if IsKnown nodePosition then do
      let nodeLine ← GetLine nodePosition
      pure ((len nodeLine : Int) - (len (trimLeftSpaces nodeLine) : Int))
    else pure 0
  let lineString ← populateLoop annPos leftPadding nodeComments ""
  let file ← GetFile nodePosition
  let p1 ← SetFile annPos file
  SetLine (some p1) lineString

/-! ## Vocabulary of the statements -/

/-- Number of leading space characters of a string. -/
def leadingSpaces (s : String) : Nat := (s.data.takeWhile (fun c => c == ' ')).length

/-- A string of `k` space characters. -/
def spaces (k : Nat) : String := String.mk (List.replicate k ' ')

/-- A `Position` reference is initialized when, if it reports itself known, it holds a
line number: the state `known` without a line-number cell is excluded. -/
def Initialized (p : Option Position) : Prop :=
  IsKnown p = true → ∃ n : Int, LineNum p = .ok n

/-- A comment matches line `N` when its position is known and holds line number `N`. -/
def matchesLine (N : Int) (c : Meta) : Bool :=
  IsKnown c.Position && decide (LineNum c.Position = .ok N)

/-- The line rendered for a comment: the padding, the marker `#`, the comment text. -/
def renderComment (pad : Nat) (c : Meta) : String := spaces pad ++ "#" ++ c.Data

/-- The line text after scanning the comments in order, every matching comment
overwriting the text held so far. -/
def scanComments (N : Int) (pad : Nat) (cs : List Meta) (start : String) : String :=
  cs.foldl (fun acc c => if matchesLine N c then renderComment pad c else acc) start

/-! ## The key/value constructor and the renderings it uses -/

/-- A value held in an `interface{}`, by its dynamic type: a `string`, an `int`, or a
value of any other type, given by its renderings under the verbs `%v` and `%#v`. -/
inductive GoValue where
  | str (s : String)
  | int (n : Int)
  | other (plain goSyntax : String)
  deriving DecidableEq, Repr

/-- The table `lowerhex` of `strconv`: the hexadecimal digit for `d < 16`. -/
def lowerhex (d : Nat) : Char := "0123456789abcdef".data.getD d '0'

/-- Model of `strconv.appendEscapedRune` as `strconv.Quote` calls it (quote character
`"`, neither ASCII-only nor graphic-only).  The Unicode table behind `strconv.IsPrint`
is the parameter `isPrint`.  Character 34 is the double quote, 92 the backslash, and
7, 8, 12, 10, 13, 9, 11 are the characters written `\a \b \f \n \r \t \v`. -/
def appendEscapedRune (isPrint : Char → Bool) (r : Char) : List Char :=
  if r.toNat = 34 ∨ r.toNat = 92 then [Char.ofNat 92, r]
  else if isPrint r then [r]
  else if r.toNat = 7 then [Char.ofNat 92, 'a']
  else if r.toNat = 8 then [Char.ofNat 92, 'b']
  else if r.toNat = 12 then [Char.ofNat 92, 'f']
  else if r.toNat = 10 then [Char.ofNat 92, 'n']
  else if r.toNat = 13 then [Char.ofNat 92, 'r']
  else if r.toNat = 9 then [Char.ofNat 92, 't']
  else if r.toNat = 11 then [Char.ofNat 92, 'v']
  else if r.toNat < 32 ∨ r.toNat = 127 then
    [Char.ofNat 92, 'x', lowerhex (r.toNat / 16), lowerhex (r.toNat % 16)]
  else if r.toNat < 65536 then
    [Char.ofNat 92, 'u', lowerhex (r.toNat / 4096 % 16), lowerhex (r.toNat / 256 % 16),
      lowerhex (r.toNat / 16 % 16), lowerhex (r.toNat % 16)]
  else
    [Char.ofNat 92, 'U', lowerhex (r.toNat / 268435456 % 16), lowerhex (r.toNat / 16777216 % 16),
      lowerhex (r.toNat / 1048576 % 16), lowerhex (r.toNat / 65536 % 16),
      lowerhex (r.toNat / 4096 % 16), lowerhex (r.toNat / 256 % 16),
      lowerhex (r.toNat / 16 % 16), lowerhex (r.toNat % 16)]

/-- Model of `strconv.Quote`: the escaped characters of the string between two double
quotes. -/
def quote (isPrint : Char → Bool) (s : String) : String :=
  String.mk (Char.ofNat 34 :: (s.data.flatMap (appendEscapedRune isPrint) ++ [Char.ofNat 34]))

/-- Rendering of a value by the verb `%v`. -/
def fmtV : GoValue → String
  | .str s => s
  | .int n => fmtD n
  | .other plain _ => plain

/-- Rendering of a value by the verb `%#v` (Go syntax): a string is quoted by
`strconv.Quote`. -/
def fmtSharpV (isPrint : Char → Bool) : GoValue → String
  | .str s => quote isPrint s
  | .int n => fmtD n
  | .other _ goSyntax => goSyntax

/-- Function `NewUnknownPositionWithKeyVal(k, v, separator)`, the format being
`"%v%v %#v"` applied to `k`, `separator` and `v`. -/
def NewUnknownPositionWithKeyVal (isPrint : Char → Bool) (k v : GoValue) (separator : String) :
    Position :=
  { line := fmtV k ++ fmtV (.str separator) ++ " " ++ fmtSharpV isPrint v, fromMemory := true }

/-- A control character: one of the code points 0 to 31 and 127 to 159. -/
def isControl (c : Char) : Bool := decide (c.toNat < 32) || (decide (127 ≤ c.toNat) && decide (c.toNat ≤ 159))

/-! ## The approximation with a numeric comparison -/

/-- The loop of `PopulateAnnotationPositionFromNode` in which the test on the decimal
renderings is replaced by the equality of the two line numbers. -/
def populateLoopNumeric (annPos : Option Position) (leftPadding : Int) :
    List Meta → String → Except Fault String
  | [], lineString => .ok lineString
  | c :: cs, lineString => do
    let hit ←
      if IsKnown c.Position then do
        let m ← LineNum c.Position
        let n ← LineNum annPos
        pure (decide (m = n))
      else pure false
    if hit then do
      let pad ← repeatSpace leftPadding
      populateLoopNumeric annPos leftPadding cs (pad ++ "#" ++ c.Data)
    else populateLoopNumeric annPos leftPadding cs lineString

/-- The function `PopulateAnnotationPositionFromNode` with the numeric comparison in its
loop. -/
def PopulateAnnotationPositionFromNodeNumeric (annPos nodePosition : Option Position)
    (nodeComments : List Meta) : Except Fault Position := do
  let leftPadding : Int ←
    if IsKnown nodePosition then do
      let nodeLine ← GetLine nodePosition
      pure ((len nodeLine : Int) - (len (trimLeftSpaces nodeLine) : Int))
    else pure 0
  let lineString ← populateLoopNumeric annPos leftPadding nodeComments ""
  let file ← GetFile nodePosition
  let p1 ← SetFile annPos file
  SetLine (some p1) lineString

/-! ## Positions obtained through the exported functions -/

/-- The Positions obtained from the three constructors by any sequence of `SetFile`,
`SetLine`, `DeepCopy`, `DeepCopyWithLineOffset` and `PopulateAnnotationPositionFromNode`
(applied to them as its annotation argument).  Arguments of type `int` are bounded by
`maxInt`; the node and the comments handed to the approximation are arbitrary, which can
only enlarge the set.  The relation `fits n k` restricts the copies with offset `k` taken
of a Position of line `n`. -/
inductive Obtained (fits : Int → Int → Prop) : Position → Prop where
  | newPosition (n : Int) (p : Position) :
      n ≤ maxInt → NewPosition n = .ok p → Obtained fits p
  | newUnknown : Obtained fits NewUnknownPosition
  | keyVal (isPrint : Char → Bool) (k v : GoValue) (separator : String) :
      Obtained fits (NewUnknownPositionWithKeyVal isPrint k v separator)
  | setFile (p q : Position) (file : String) :
      Obtained fits p → SetFile (some p) file = .ok q → Obtained fits q
  | setLine (p q : Position) (line : String) :
      Obtained fits p → SetLine (some p) line = .ok q → Obtained fits q
  | deepCopy (p q : Position) :
      Obtained fits p → DeepCopy (some p) = some q → Obtained fits q
  | offset (p q : Position) (n k : Int) :
      Obtained fits p → k ≤ maxInt → LineNum (some p) = .ok n → fits n k →
      DeepCopyWithLineOffset (some p) k = .ok q → Obtained fits q
  | populate (a r : Position) (n : Option Position) (cs : List Meta) :
      Obtained fits a → PopulateAnnotationPositionFromNode (some a) n cs = .ok r →
      Obtained fits r

/-- No restriction on the offsets: every offset `DeepCopyWithLineOffset` accepts. -/
def anyOffset : Int → Int → Prop := fun _ _ => True

/-- The offsets whose sum with the line number does not exceed the largest `int`. -/
def noWrap : Int → Int → Prop := fun n k => n + k ≤ maxInt

/-! ## Positions in memory

The methods above work on the value a pointer refers to.  Where the identity of the
pointers matters (what a call writes, what a copy shares) the memory is explicit: a
`*Position` is the address of a `Cell`, the field `lineNum` the address of an `int`. -/

/-- A `Position` struct in memory: its field `lineNum` is the address of an `int`, or
nil. -/
structure Cell where
  lineNum : Option Nat := none
  file : String := ""
  line : String := ""
  known : Bool := false
  fromMemory : Bool := false
  deriving DecidableEq, Repr

/-- The memory: the contents of the `int` cells and of the `Position` cells by address.
The addresses below a counter are allocated, and an allocation takes the address of the
counter. -/
structure Store where
  ints : Nat → Int
  nextInt : Nat
  cells : Nat → Cell
  nextCell : Nat

/-- The memory before any allocation. -/
def Store.empty : Store :=
  { ints := fun _ => 0, nextInt := 0, cells := fun _ => {}, nextCell := 0 }

/-- The value a `*Position` refers to: nil, or the struct with the `int` its `lineNum`
points to. -/
def Store.view (s : Store) (p : Option Nat) : Option Position :=
  match p with
  | none => none
  | some a =>
    some { lineNum := (s.cells a).lineNum.map s.ints, file := (s.cells a).file,
           line := (s.cells a).line, known := (s.cells a).known,
           fromMemory := (s.cells a).fromMemory }

/-- Assignment to the `Position` cell at address `a`. -/
def Store.writeCell (s : Store) (a : Nat) (c : Cell) : Store :=
  { s with cells := fun x => if x = a then c else s.cells x }

/-- Assignment to the `int` cell at address `i`. -/
def Store.writeInt (s : Store) (i : Nat) (v : Int) : Store :=
  { s with ints := fun x => if x = i then v else s.ints x }

/-- Allocation of a `Position` cell holding `c`: the new memory and the new address. -/
def Store.allocCell (s : Store) (c : Cell) : Store × Nat :=
  ({ s with cells := fun x => if x = s.nextCell then c else s.cells x,
            nextCell := s.nextCell + 1 }, s.nextCell)

/-- Allocation of an `int` cell holding `v`: the new memory and the new address. -/
def Store.allocInt (s : Store) (v : Int) : Store × Nat :=
  ({ s with ints := fun x => if x = s.nextInt then v else s.ints x,
            nextInt := s.nextInt + 1 }, s.nextInt)

/-- The struct `Meta` in memory: the comment's text and the address of its Position. -/
structure MetaRef where
  Data : String
  Position : Option Nat
  deriving DecidableEq, Repr

/-- The value of a comment in memory. -/
def Store.viewMeta (s : Store) (c : MetaRef) : Meta :=
  { Data := c.Data, Position := s.view c.Position }

/-- Function `NewPosition(lineNum)` in memory: the parameter gets its own `int` cell, whose
address the new struct holds. -/
def Ref.NewPosition (s : Store) (lineNum : Int) : Except Fault (Store × Option Nat) :=
  if lineNum ≤ 0 then .error (.panic "Lines are 1 based")
  else
    let s1 := (s.allocInt lineNum).1
    let i := (s.allocInt lineNum).2
    let s2 := (s1.allocCell { lineNum := some i, known := true }).1
    let a := (s1.allocCell { lineNum := some i, known := true }).2
    .ok (s2, some a)

/-- Method `p.SetFile(file)` in memory. -/
def Ref.SetFile (s : Store) (p : Option Nat) (file : String) : Except Fault Store :=
  match p with
  | none => .error .nilDeref
  | some a => .ok (s.writeCell a { s.cells a with file := file })

/-- Method `p.SetLine(line)` in memory. -/
def Ref.SetLine (s : Store) (p : Option Nat) (line : String) : Except Fault Store :=
  match p with
  | none => .error .nilDeref
  | some a => .ok (s.writeCell a { s.cells a with line := line })

/-- Method `p.DeepCopy()` in memory: the new struct is allocated with the file, the known
flag and the line text of `p`; if `p` holds a line number, its value is copied to a new
`int` cell, whose address the new struct receives. -/
def Ref.DeepCopy (s : Store) (p : Option Nat) : Store × Option Nat :=
  match p with
  | none => (s, none)
  | some a =>
    let s1 := (s.allocCell
      { file := (s.cells a).file, known := (s.cells a).known, line := (s.cells a).line }).1
    let newPos := s.nextCell
    match (s.cells a).lineNum with
    | some i =>
      let s2 := (s1.allocInt (s1.ints i)).1
      let lineVal := s1.nextInt
      (s2.writeCell newPos { s2.cells newPos with lineNum := some lineVal }, some newPos)
    | none => (s1, some newPos)

/-- Method `p.DeepCopyWithLineOffset(offset)` in memory: the offset is added in place to
the `int` cell of the copy. -/
def Ref.DeepCopyWithLineOffset (s : Store) (p : Option Nat) (offset : Int) :
    Except Fault (Store × Option Nat) :=
  if !IsKnown (s.view p) then .error (.panic "Position is unknown")
  else if offset < 0 then .error (.panic "Unexpected line offset")
  else
    match (Ref.DeepCopy s p).2 with
    | none => .error .nilDeref
    | some newPos =>
      match ((Ref.DeepCopy s p).1.cells newPos).lineNum with
      | none => .error .nilDeref
      | some j =>
        .ok ((Ref.DeepCopy s p).1.writeInt j (wrapInt ((Ref.DeepCopy s p).1.ints j + offset)),
          some newPos)

/-- Function `PopulateAnnotationPositionFromNode` in memory.  The padding and the loop
only read, so they are computed on the values the pointers refer to; the two setters
then write to the cell of `annPos`, which is the pointer returned. -/
def Ref.PopulateAnnotationPositionFromNode (s : Store) (annPos nodePosition : Option Nat)
    (nodeComments : List MetaRef) : Except Fault (Store × Option Nat) := do
  let leftPadding : Int ←
    if IsKnown (s.view nodePosition) then do
      let nodeLine ← GetLine (s.view nodePosition)
      pure ((len nodeLine : Int) - (len (trimLeftSpaces nodeLine) : Int))
    else pure 0
  let lineString ← populateLoop (s.view annPos) leftPadding (nodeComments.map s.viewMeta) ""
  let file ← GetFile (s.view nodePosition)
  let s1 ← Ref.SetFile s annPos file
  let s2 ← Ref.SetLine s1 annPos lineString
  pure (s2, annPos)

/-- The memory holding one Position, line 5 of file `a` with the line text `old`, at
address 0, its line number being in the `int` cell of address 0. -/
def Store.lineFive : Store :=
  { ints := fun _ => 5, nextInt := 1,
    cells := fun x =>
      if x = 0 then { lineNum := some 0, file := "a", line := "old", known := true } else {},
    nextCell := 1 }

/-! ## Lemmas on the library model -/

theorem digitChar_toNat (d : Nat) (h : d < 10) : (digitChar d).toNat = 48 + d := by
  interval_cases d <;> rfl

theorem decDigitsAux_fuel (f g u : Nat) (hf : u ≤ f) (hg : u ≤ g) :
    decDigitsAux f u = decDigitsAux g u := by
  induction f generalizing g u with
  | zero =>
    have hu : u = 0 := by omega
    subst hu
    cases g with
    | zero => rfl
    | succ g => simp [decDigitsAux]
  | succ f ih =>
    cases g with
    | zero =>
      have hu : u = 0 := by omega
      subst hu
      simp [decDigitsAux]
    | succ g =>
      simp only [decDigitsAux]
      by_cases h : u < 10
      · simp [h]
      · simp only [h, if_false]
        rw [ih g (u / 10) (by omega) (by omega)]

theorem decDigits_lt (u : Nat) (h : u < 10) : decDigits u = [digitChar u] := by
  unfold decDigits
  cases u with
  | zero => rfl
  | succ u => simp [decDigitsAux, h]

theorem decDigits_ge (u : Nat) (h : 10 ≤ u) :
    decDigits u = decDigits (u / 10) ++ [digitChar (u % 10)] := by
  unfold decDigits
  cases u with
  | zero => omega
  | succ u =>
    have h' : ¬ (u + 1 < 10) := by omega
    simp only [decDigitsAux, h', if_false]
    rw [decDigitsAux_fuel u ((u + 1) / 10) ((u + 1) / 10) (by omega) (le_refl _)]

theorem readDigits_append (xs ys : List Char) (acc : Nat) :
    readDigits (xs ++ ys) acc = (readDigits xs acc).bind (readDigits ys) := by
  induction xs generalizing acc with
  | nil => rfl
  | cons c cs ih =>
    simp only [List.cons_append, readDigits]
    split
    · exact ih _
    · rfl

theorem readDigits_decDigits (u : Nat) : readDigits (decDigits u) 0 = some u := by
  induction u using Nat.strong_induction_on with
  | _ u ih =>
    by_cases h : u < 10
    · rw [decDigits_lt u h]
      simp [readDigits, digitChar_toNat u h]
      omega
    · rw [decDigits_ge u (by omega), readDigits_append, ih (u / 10) (by omega)]
      have := digitChar_toNat (u % 10) (Nat.mod_lt _ (by decide))
      simp [readDigits, this]
      omega
theorem decDigits_ne_nil (u : Nat) : decDigits u ≠ [] := by
  by_cases h : u < 10
  · rw [decDigits_lt u h]; simp
  · rw [decDigits_ge u (by omega)]; simp

theorem decDigits_digit (u : Nat) : ∀ c ∈ decDigits u, 48 ≤ c.toNat ∧ c.toNat ≤ 57 := by
  induction u using Nat.strong_induction_on with
  | _ u ih =>
    intro c hc
    by_cases h : u < 10
    · rw [decDigits_lt u h] at hc
      simp only [List.mem_singleton] at hc
      subst hc
      rw [digitChar_toNat u h]; omega
    · rw [decDigits_ge u (by omega)] at hc
      rcases List.mem_append.mp hc with hc | hc
      · exact ih (u / 10) (by omega) c hc
      · simp only [List.mem_singleton] at hc
        subst hc
        have hm : u % 10 < 10 := Nat.mod_lt _ (by decide)
        rw [digitChar_toNat _ hm]; omega

theorem decDigits_head (u : Nat) (h : 1 ≤ u) :
    ∃ c cs, decDigits u = c :: cs ∧ 49 ≤ c.toNat ∧ c.toNat ≤ 57 := by
  induction u using Nat.strong_induction_on with
  | _ u ih =>
    by_cases h10 : u < 10
    · refine ⟨digitChar u, [], decDigits_lt u h10, ?_⟩
      rw [digitChar_toNat u h10]; omega
    · obtain ⟨c, cs, hcs, hc⟩ := ih (u / 10) (by omega) (by omega)
      refine ⟨c, cs ++ [digitChar (u % 10)], ?_, hc⟩
      rw [decDigits_ge u (by omega), hcs]; rfl

theorem decDigits_length_le (k u : Nat) :
    (decDigits u).length ≤ k + 1 ↔ u < 10 ^ (k + 1) := by
  induction k generalizing u with
  | zero =>
    by_cases h : u < 10
    · rw [decDigits_lt u h]; simp [h]
    · rw [decDigits_ge u (by omega)]
      have := decDigits_ne_nil (u / 10)
      have : 0 < (decDigits (u / 10)).length := List.length_pos.mpr this
      simp only [List.length_append, List.length_singleton]
      constructor
      · intro h'; omega
      · intro h'; simp at h'; omega
  | succ k ih =>
    by_cases h : u < 10
    · rw [decDigits_lt u h]
      have : (10:Nat) ^ 1 ≤ 10 ^ (k + 1 + 1) := Nat.pow_le_pow_right (by decide) (by omega)
      simp only [List.length_singleton]
      constructor
      · intro _; omega
      · intro _; omega
    · rw [decDigits_ge u (by omega)]
      simp only [List.length_append, List.length_singleton, Nat.add_le_add_iff_right]
      rw [ih (u / 10), Nat.div_lt_iff_lt_mul (by decide)]
      rw [Nat.pow_succ 10 (k + 1)]

theorem readDecimal_fmtD (n : Int) : readDecimal (fmtD n) = some n := by
  unfold fmtD readDecimal
  by_cases h : n < 0
  · simp only [h, if_true]
    have hne := decDigits_ne_nil n.natAbs
    simp only [hne, if_false, readDigits_decDigits, Option.map_some']
    have : -(n.natAbs : Int) = n := by omega
    rw [this]
  · simp only [h, if_false]
    have hd := decDigits_digit n.natAbs
    cases hds : decDigits n.natAbs with
    | nil => exact absurd hds (decDigits_ne_nil _)
    | cons c cs =>
      have hc := hd c (by rw [hds]; exact List.mem_cons_self _ _)
      have hm : c ≠ '-' := by
        intro he
        rw [he] at hc
        revert hc
        decide
      have hr := readDigits_decDigits n.natAbs
      rw [hds] at hr
      split
      · rename_i heq; exact absurd heq (by simp)
      · rename_i c2 heq
        simp only [List.cons.injEq] at heq
        exact absurd heq.1 hm
      · simp only [hr, Option.map_some']
        have : (n.natAbs : Int) = n := by omega
        rw [this]

theorem fmtD_injective (a b : Int) (h : fmtD a = fmtD b) : a = b := by
  have := congrArg readDecimal h
  rw [readDecimal_fmtD, readDecimal_fmtD] at this
  exact Option.some.inj this

theorem len_pos_iff (s : String) : len s > 0 ↔ s ≠ "" := by
  cases s with
  | mk cs =>
    cases cs with
    | nil => simp [len, String.utf8ByteSize]
    | cons c cs =>
      have : 0 < c.utf8Size := Char.utf8Size_pos c
      simp only [len, String.utf8ByteSize_mk, String.utf8Len_cons]
      constructor
      · intro _ h
        have := congrArg String.data h
        simp at this
      · intro _; omega

theorem leftPadding_eq (s : String) :
    (len s : Int) - (len (trimLeftSpaces s) : Int) = (leadingSpaces s : Int) := by
  cases s with
  | mk cs =>
    simp only [len, trimLeftSpaces, leadingSpaces, String.utf8ByteSize_mk]
    induction cs with
    | nil => simp
    | cons c cs ih =>
      by_cases hc : c = ' '
      · subst hc
        simp only [List.dropWhile_cons, List.takeWhile_cons, beq_self_eq_true, if_true,
          List.length_cons, String.utf8Len_cons]
        have : (' ' : Char).utf8Size = 1 := by decide
        rw [this]
        push_cast
        omega
      · have hb : (c == ' ') = false := by simpa using hc
        simp [List.dropWhile_cons, List.takeWhile_cons, hb]

theorem repeatSpace_natCast (k : Nat) : repeatSpace (k : Int) = .ok (spaces k) := by
  unfold repeatSpace spaces
  have : ¬ ((k : Int) < 0) := by omega
  simp [this]

theorem LineNum_some_ok (p : Position) (N : Int) (hk : p.known = true)
    (hl : p.lineNum = some N) : LineNum (some p) = .ok N := by
  simp [LineNum, IsKnown, hk, hl]

theorem populateLoop_eq (a : Option Position) (N : Int) (ha : LineNum a = .ok N) (pad : Nat)
    (cs : List Meta) (hcs : ∀ c ∈ cs, Initialized c.Position) (start : String) :
    populateLoop a (pad : Int) cs start = .ok (scanComments N pad cs start) := by
  induction cs generalizing start with
  | nil => rfl
  | cons c cs ih =>
    have hc := hcs c (List.mem_cons_self _ _)
    have hrest : ∀ c ∈ cs, Initialized c.Position :=
      fun d hd => hcs d (List.mem_cons_of_mem _ hd)
    unfold populateLoop
    simp only [scanComments, List.foldl_cons]
    by_cases hk : IsKnown c.Position = true
    · obtain ⟨m, hm⟩ := hc hk
      have hmatch : matchesLine N c = decide (m = N) := by
        simp [matchesLine, hk, hm]
      have hstr : decide (fmtD m = fmtD N) = decide (m = N) := by
        by_cases hmn : m = N
        · simp [hmn]
        · have : fmtD m ≠ fmtD N := fun h => hmn (fmtD_injective _ _ h)
          simp [hmn, this]
      simp only [hk, if_true, AsIntString, hm, ha, hmatch, bind, Except.bind, pure, Except.pure,
        hstr, repeatSpace_natCast]
      by_cases hmn : m = N
      · simp only [hmn, decide_True, if_true]
        exact ih hrest _
      · simp only [hmn, decide_False, Bool.false_eq_true, if_false]
        exact ih hrest _
    · have hk' : IsKnown c.Position = false := by simpa using hk
      have hmatch : matchesLine N c = false := by simp [matchesLine, hk']
      simp only [hk', Bool.false_eq_true, if_false, hmatch, bind, Except.bind, pure, Except.pure]
      exact ih hrest _

/-! ## Constructors -/

/-- C1: for every integer `n ≥ 1`, `NewPosition(n)` returns a Position that is known, has
line number `n`, empty file, empty line text and is not from memory; for every `n ≤ 0`
it panics (with "Lines are 1 based") instead of returning a Position. -/
theorem NewPosition_spec (n : Int) :
    (1 ≤ n → ∃ p, NewPosition n = .ok p ∧ IsKnown (some p) = true ∧
        LineNum (some p) = .ok n ∧ GetFile (some p) = .ok "" ∧ GetLine (some p) = .ok "" ∧
        FromMemory (some p) = .ok false) ∧
    (n ≤ 0 → NewPosition n = .error (.panic "Lines are 1 based")) := by
  constructor
  · intro h
    have h' : ¬ n ≤ 0 := by omega
    refine ⟨{ lineNum := some n, known := true }, ?_, rfl, ?_, rfl, rfl, rfl⟩
    · simp [NewPosition, h']
    · simp [LineNum, IsKnown]
  · intro h
    simp [NewPosition, h]

/-- Instance of `NewPosition_spec` at the line numbers 12 (accepted) and 0 (rejected). -/
theorem NewPosition_spec_witness :
    (∃ p, NewPosition 12 = .ok p ∧ IsKnown (some p) = true ∧
        LineNum (some p) = .ok 12 ∧ GetFile (some p) = .ok "" ∧ GetLine (some p) = .ok "" ∧
        FromMemory (some p) = .ok false) ∧
    NewPosition 0 = .error (.panic "Lines are 1 based") :=
  ⟨(NewPosition_spec 12).1 (by decide), (NewPosition_spec 0).2 (by decide)⟩

/-- C2: `NewUnknownPosition()` is the zero-valued Position: not known, no line number
held, empty file and line text, not from memory; `LineNum()` on it panics. -/
theorem NewUnknownPosition_spec :
    NewUnknownPosition =
        { lineNum := none, file := "", line := "", known := false, fromMemory := false } ∧
    IsKnown (some NewUnknownPosition) = false ∧
    NewUnknownPosition.lineNum = none ∧
    GetFile (some NewUnknownPosition) = .ok "" ∧
    GetLine (some NewUnknownPosition) = .ok "" ∧
    FromMemory (some NewUnknownPosition) = .ok false ∧
    LineNum (some NewUnknownPosition) = .error (.panic "Position is unknown") := by
  decide

theorem decDigits_mem (u : Nat) : ∀ c ∈ decDigits u, c ∈ "0123456789".data := by
  have hd : ∀ d, d < 10 → digitChar d ∈ "0123456789".data := by
    intro d hd
    interval_cases d <;> decide
  induction u using Nat.strong_induction_on with
  | _ u ih =>
    intro c hc
    by_cases h : u < 10
    · rw [decDigits_lt u h] at hc
      simp only [List.mem_singleton] at hc
      subst hc
      exact hd u h
    · rw [decDigits_ge u (by omega)] at hc
      rcases List.mem_append.mp hc with hc | hc
      · exact ih (u / 10) (by omega) c hc
      · simp only [List.mem_singleton] at hc
        subst hc
        exact hd _ (Nat.mod_lt _ (by decide))

theorem fmtD_data_nonneg (n : Int) (h : 0 ≤ n) : (fmtD n).data = decDigits n.natAbs := by
  have : ¬ n < 0 := by omega
  simp [fmtD, this]

theorem fmtD_length_le_four (n : Int) (h : 0 ≤ n) : (fmtD n).length ≤ 4 ↔ n ≤ 9999 := by
  rw [String.length, fmtD_data_nonneg n h, decDigits_length_le 3 n.natAbs]
  omega

theorem fmtD_length_le_four_iff (n : Int) :
    (fmtD n).length ≤ 4 ↔ (-999 ≤ n ∧ n ≤ 9999) := by
  by_cases h : 0 ≤ n
  · rw [fmtD_length_le_four n h]
    omega
  · have hneg : n < 0 := by omega
    have hd : (fmtD n).data = '-' :: decDigits n.natAbs := by simp [fmtD, hneg]
    rw [String.length, hd, List.length_cons, Nat.add_le_add_iff_right,
      decDigits_length_le 2 n.natAbs]
    omega

theorem Obtained_maxInt_line :
    Obtained anyOffset { lineNum := some 9223372036854775807, known := true } :=
  Obtained.newPosition 9223372036854775807 _ (by decide) (by decide)

theorem Obtained_minInt_line :
    Obtained anyOffset { lineNum := some (-9223372036854775808), known := true } :=
  Obtained.offset { lineNum := some 9223372036854775807, known := true } _
    9223372036854775807 1 Obtained_maxInt_line (by decide) (by decide) trivial (by decide)

theorem fmt4D_length (n : Int) : (fmt4D n).length = max 4 (fmtD n).length := by
  unfold fmt4D
  rw [String.length_append]
  have : (String.mk (List.replicate (4 - (fmtD n).length) ' ')).length = 4 - (fmtD n).length := by
    show (List.replicate (4 - (fmtD n).length) ' ').length = 4 - (fmtD n).length
    exact List.length_replicate _ _
  rw [this]
  omega

theorem known_of_LineNum (p : Option Position) (N : Int) (h : LineNum p = .ok N) :
    IsKnown p = true := by
  cases hk : IsKnown p with
  | true => rfl
  | false => simp [LineNum, hk] at h

/-! ## Formatting -/

/-- C3: for every non-nil Position with file `f` and, when known, line number `N`,
`AsCompactString()` is `f ++ ":" ++ decimal(N)` (file non-empty, known), `f ++ ":?"`
(file non-empty, unknown), `decimal(N)` (file empty, known) and `"?"` (file empty,
unknown); `AsString()` is always `"line "` followed by `AsCompactString()`; line 12 of
file `x.yaml` gives `"x.yaml:12"` and `"line x.yaml:12"`. -/
theorem AsCompactString_spec (p : Position) (N : Int) :
    (p.file ≠ "" → p.known = true → p.lineNum = some N →
      AsCompactString (some p) = .ok (p.file ++ ":" ++ fmtD N)) ∧
    (p.file ≠ "" → p.known = false → AsCompactString (some p) = .ok (p.file ++ ":?")) ∧
    (p.file = "" → p.known = true → p.lineNum = some N →
      AsCompactString (some p) = .ok (fmtD N)) ∧
    (p.file = "" → p.known = false → AsCompactString (some p) = .ok "?") ∧
    AsString (some p) = (AsCompactString (some p)).map (fun s => "line " ++ s) ∧
    (∃ q r, NewPosition 12 = .ok q ∧ SetFile (some q) "x.yaml" = .ok r ∧
      AsCompactString (some r) = .ok "x.yaml:12" ∧ AsString (some r) = .ok "line x.yaml:12") := by
  refine ⟨?_, ?_, ?_, ?_, ?_, ?_⟩
  · intro hf hk hl
    have hlen : len p.file > 0 := (len_pos_iff _).mpr hf
    simp only [AsCompactString, hlen, if_true, IsKnown, hk, LineNum_some_ok p N hk hl]
    rfl
  · intro hf hk
    have hlen : len p.file > 0 := (len_pos_iff _).mpr hf
    simp only [AsCompactString, hlen, if_true, IsKnown, hk, Bool.false_eq_true, if_false,
      String.append_assoc]
    rfl
  · intro hf hk hl
    have hlen : ¬ len p.file > 0 := fun h => (len_pos_iff _).mp h hf
    simp only [AsCompactString, hlen, if_false, IsKnown, hk, if_true,
      LineNum_some_ok p N hk hl, hf]
    show Except.ok ("" ++ fmtD N) = Except.ok (fmtD N)
    rw [String.empty_append]
  · intro hf hk
    have hlen : ¬ len p.file > 0 := fun h => (len_pos_iff _).mp h hf
    simp only [AsCompactString, hlen, if_false, IsKnown, hk, Bool.false_eq_true, hf]
    rfl
  · unfold AsString
    cases AsCompactString (some p) <;> rfl
  · exact ⟨{ lineNum := some 12, known := true },
      { lineNum := some 12, file := "x.yaml", known := true }, by decide, by decide, by decide,
      by decide⟩

/-- Instance of `AsCompactString_spec` at line 12 of `x.yaml`, at an unknown position of
`x.yaml`, and at the same two positions without a file. -/
theorem AsCompactString_spec_witness :
    AsCompactString (some { lineNum := some 12, file := "x.yaml", known := true })
      = .ok "x.yaml:12" ∧
    AsCompactString (some { file := "x.yaml" }) = .ok "x.yaml:?" ∧
    AsCompactString (some { lineNum := some 12, known := true }) = .ok "12" ∧
    AsCompactString (some { }) = .ok "?" :=
  ⟨(AsCompactString_spec { lineNum := some 12, file := "x.yaml", known := true } 12).1
      (by decide) rfl rfl,
   (AsCompactString_spec { file := "x.yaml" } 0).2.1 (by decide) rfl,
   (AsCompactString_spec { lineNum := some 12, known := true } 12).2.2.1 rfl rfl rfl,
   (AsCompactString_spec { } 0).2.2.2.1 rfl rfl⟩

/-- C4 (as stated, refuted): the copy with offset 1 of the Position of the largest `int`
line is obtained through the exported functions and is known; `AsIntString()` renders it
as `"-9223372036854775808"`, which starts with a sign and so does not consist of digit
characters only. -/
theorem AsIntString_signed :
    Obtained anyOffset { lineNum := some (-9223372036854775808), known := true } ∧
    IsKnown (some { lineNum := some (-9223372036854775808), known := true }) = true ∧
    AsIntString (some { lineNum := some (-9223372036854775808), known := true })
      = .ok "-9223372036854775808" ∧
    ("-9223372036854775808" : String).data.head? = some '-' ∧
    ¬ (∀ c ∈ ("-9223372036854775808" : String).data, c ∈ "0123456789".data) :=
  ⟨Obtained_minInt_line, by decide, by decide, by decide, by decide⟩

/-- C4 (amended): for every known Position with line number `N`, `AsIntString()` is the
decimal rendering of `N`, which reads back as `N`; when `N ≥ 1` it consists of digit
characters only (no sign) and does not start with `0`.  For every unknown Position,
the nil one included, `AsIntString()` is `"?"`. -/
theorem AsIntString_spec (p : Option Position) :
    (∀ N : Int, IsKnown p = true → LineNum p = .ok N →
      AsIntString p = .ok (fmtD N) ∧ readDecimal (fmtD N) = some N ∧
      (1 ≤ N → (∀ c ∈ (fmtD N).data, c ∈ "0123456789".data) ∧
        (fmtD N).data.head? ≠ some '0')) ∧
    (IsKnown p = false → AsIntString p = .ok "?") := by
  constructor
  · intro N hk hl
    refine ⟨?_, readDecimal_fmtD N, ?_⟩
    · simp only [AsIntString, hk, if_true, hl]
      rfl
    · intro hN
      rw [fmtD_data_nonneg N (by omega)]
      refine ⟨decDigits_mem _, ?_⟩
      obtain ⟨c, cs, hcs, hc⟩ := decDigits_head N.natAbs (by omega)
      rw [hcs]
      intro h0
      simp only [List.head?_cons, Option.some.injEq] at h0
      rw [h0] at hc
      revert hc
      decide
  · intro hk
    simp only [AsIntString, hk, Bool.false_eq_true, if_false]
    rfl

/-- Instance of `AsIntString_spec` at line 12, rendered `"12"`, and at the nil
Position. -/
theorem AsIntString_spec_witness :
    AsIntString (some { lineNum := some 12, known := true }) = .ok "12" ∧
    readDecimal "12" = some 12 ∧
    (∀ c ∈ ("12" : String).data, c ∈ "0123456789".data) ∧
    ("12" : String).data.head? ≠ some '0' ∧
    AsIntString none = .ok "?" :=
  have h := (AsIntString_spec (some { lineNum := some 12, known := true })).1 12 rfl rfl
  ⟨h.1, h.2.1, (h.2.2 (by decide)).1, (h.2.2 (by decide)).2, (AsIntString_spec none).2 rfl⟩

/-- C5 (as stated, refuted): line 10000 is rendered by `As4DigitString()` as `"10000"`,
which is five characters long, not four. -/
theorem As4DigitString_five_characters :
    NewPosition 10000 = .ok { lineNum := some 10000, known := true } ∧
    As4DigitString (some { lineNum := some 10000, known := true }) = .ok "10000" ∧
    ("10000" : String).length = 5 := by
  decide

/-- C5 (amended): for a known Position with line number `N`, `As4DigitString()` is the
decimal rendering of `N` (sign included) preceded by as many spaces as it lacks to four
characters; its length is the larger of 4 and the length of the decimal rendering, so
it is exactly 4 characters iff `-999 ≤ N ≤ 9999` (for `N ≥ 0`: iff `N ≤ 9999`), and from
10000 on it is the decimal rendering without padding.  For an unknown Position it is
`"????"`. -/
theorem As4DigitString_spec (p : Option Position) :
    (∀ N : Int, IsKnown p = true → LineNum p = .ok N →
      ∃ s, As4DigitString p = .ok s ∧ s = spaces (4 - (fmtD N).length) ++ fmtD N ∧
        s.length = max 4 (fmtD N).length ∧
        (s.length = 4 ↔ (-999 ≤ N ∧ N ≤ 9999)) ∧
        (0 ≤ N → (s.length = 4 ↔ N ≤ 9999)) ∧
        (10000 ≤ N → s = fmtD N)) ∧
    (IsKnown p = false → As4DigitString p = .ok "????") := by
  constructor
  · intro N hk hl
    refine ⟨fmt4D N, ?_, rfl, fmt4D_length N, ?_, ?_, ?_⟩
    · simp only [As4DigitString, hk, if_true, hl]
      rfl
    · rw [fmt4D_length, ← fmtD_length_le_four_iff N]
      omega
    · intro hN
      rw [fmt4D_length, ← fmtD_length_le_four N hN]
      omega
    · intro hN
      have hlen : ¬ (fmtD N).length ≤ 4 := by
        rw [fmtD_length_le_four_iff]
        omega
      have h0 : 4 - (fmtD N).length = 0 := by omega
      unfold fmt4D
      rw [h0]
      exact String.empty_append _
  · intro hk
    simp only [As4DigitString, hk, Bool.false_eq_true, if_false]
    rfl

/-- Instance of `As4DigitString_spec` at line 12, rendered `"  12"`, and at the nil
Position. -/
theorem As4DigitString_spec_witness :
    (As4DigitString (some { lineNum := some 12, known := true }) = .ok "  12" ∧
      ("  12" : String).length = 4) ∧
    As4DigitString none = .ok "????" := by
  refine ⟨?_, (As4DigitString_spec none).2 rfl⟩
  obtain ⟨s, h1, h2, _, _, h4, _⟩ :=
    (As4DigitString_spec (some { lineNum := some 12, known := true })).1 12 rfl rfl
  have hs : s = "  12" := by rw [h2]; decide
  rw [hs] at h1 h4
  exact ⟨h1, (h4 (by decide)).mpr (by decide)⟩

theorem wrapInt_eq_self (x : Int) (h1 : minInt ≤ x) (h2 : x ≤ maxInt) : wrapInt x = x := by
  unfold minInt at h1
  unfold maxInt at h2
  unfold wrapInt
  omega

theorem LineNum_ok_iff (p : Option Position) (N : Int) :
    LineNum p = .ok N ↔ ∃ q, p = some q ∧ q.known = true ∧ q.lineNum = some N := by
  cases p with
  | none => simp [LineNum, IsKnown]
  | some q =>
    cases hk : q.known with
    | false => simp [LineNum, IsKnown, hk]
    | true =>
      cases hl : q.lineNum with
      | none => simp [LineNum, IsKnown, hk, hl]
      | some n => simp [LineNum, IsKnown, hk, hl]

theorem IsNextTo_known (p q : Position) (a c : Int) (hpk : p.known = true)
    (hqk : q.known = true) (hpl : p.lineNum = some a) (hql : q.lineNum = some c) :
    IsNextTo (some p) (some q) =
      .ok (decide (p.file = q.file ∧ -1 ≤ wrapInt (a - c) ∧ wrapInt (a - c) ≤ 1)) := by
  unfold IsNextTo
  simp only [IsKnown, hpk, hqk, Bool.and_self, if_true, GetFile, LineNum_some_ok p a hpk hpl,
    LineNum_some_ok q c hqk hql, bind, Except.bind, pure, Except.pure, ge_iff_le]
  by_cases hf : p.file = q.file
  · by_cases hd : -1 ≤ wrapInt (a - c) ∧ wrapInt (a - c) ≤ 1
    · simp [hf, hd]
    · simp [hf, hd]
  · simp [hf]

/-! ## Copies and adjacency -/

/-- C6: for every non-nil Position `p`, `p.DeepCopy()` is a non-nil Position with the same
`IsKnown()`, `GetFile()` and `GetLine()` as `p`, holding a line number iff `p` does (and
then the same one), so that `LineNum()` gives on the copy what it gives on `p`; `DeepCopy`
of the nil Position is nil. -/
theorem DeepCopy_spec (p : Position) :
    (∃ q, DeepCopy (some p) = some q ∧
      IsKnown (some q) = IsKnown (some p) ∧
      GetFile (some q) = GetFile (some p) ∧
      GetLine (some q) = GetLine (some p) ∧
      q.lineNum.isSome = p.lineNum.isSome ∧
      q.lineNum = p.lineNum ∧
      LineNum (some q) = LineNum (some p)) ∧
    DeepCopy none = none := by
  refine ⟨?_, rfl⟩
  cases hl : p.lineNum with
  | none =>
    refine ⟨{ file := p.file, known := p.known, line := p.line }, ?_, rfl, rfl, rfl, rfl, rfl, ?_⟩
    · simp [DeepCopy, hl]
    · simp [LineNum, IsKnown, hl]
  | some n =>
    refine ⟨{ lineNum := some n, file := p.file, known := p.known, line := p.line },
      ?_, rfl, rfl, rfl, rfl, rfl, ?_⟩
    · simp [DeepCopy, hl]
    · simp [LineNum, IsKnown, hl]

/-- C7 (as stated, refuted): the copy of the Position at the largest `int` line, taken
with offset 1, is returned with the smallest `int` as its line number, which is not the
original line number plus 1. -/
theorem DeepCopyWithLineOffset_wraps :
    NewPosition 9223372036854775807 = .ok { lineNum := some 9223372036854775807, known := true } ∧
    DeepCopyWithLineOffset (some { lineNum := some 9223372036854775807, known := true }) 1
      = .ok { lineNum := some (-9223372036854775808), known := true } ∧
    LineNum (some { lineNum := some (-9223372036854775808), known := true })
      = .ok (-9223372036854775808) ∧
    (-9223372036854775808 : Int) ≠ 9223372036854775807 + 1 := by
  decide

/-- C7 (amended): for every initialized Position `p` and offset `k`,
`p.DeepCopyWithLineOffset(k)` panics iff `p` is unknown (or nil) or `k < 0`; otherwise it
returns a known Position with the file and line text of `p` whose line number is
`p.LineNum() + k` reduced to Go's 64-bit `int`, which is `p.LineNum() + k` itself
whenever that sum does not exceed the largest `int`. -/
theorem DeepCopyWithLineOffset_spec (p : Option Position) (k : Int) (hp : Initialized p) :
    ((∃ e, DeepCopyWithLineOffset p k = .error e) ↔ (IsKnown p = false ∨ k < 0)) ∧
    (IsKnown p = true → 0 ≤ k →
      ∃ q N, DeepCopyWithLineOffset p k = .ok q ∧ LineNum p = .ok N ∧
        IsKnown (some q) = true ∧
        LineNum (some q) = .ok (wrapInt (N + k)) ∧
        (minInt ≤ N → N + k ≤ maxInt → LineNum (some q) = .ok (N + k)) ∧
        GetFile (some q) = GetFile p ∧ GetLine (some q) = GetLine p) := by
  cases hk : IsKnown p with
  | false =>
    refine ⟨⟨fun _ => Or.inl rfl, fun _ => ⟨.panic "Position is unknown", ?_⟩⟩,
      fun h => by cases h⟩
    simp only [DeepCopyWithLineOffset, hk, Bool.not_false, if_true]
  | true =>
    obtain ⟨N, hN⟩ := hp hk
    obtain ⟨q, hq, hqk, hql⟩ := (LineNum_ok_iff p N).mp hN
    subst hq
    have hcopy : DeepCopy (some q) =
        some { lineNum := some N, file := q.file, known := q.known, line := q.line } := by
      simp [DeepCopy, hql]
    by_cases hneg : k < 0
    · refine ⟨⟨fun _ => Or.inr hneg, fun _ => ⟨.panic "Unexpected line offset", ?_⟩⟩,
        fun _ h0 => absurd hneg (by omega)⟩
      simp only [DeepCopyWithLineOffset, hk, Bool.not_true, Bool.false_eq_true, if_false, hneg,
        if_true]
    · have hres : DeepCopyWithLineOffset (some q) k =
          .ok { lineNum := some (wrapInt (N + k)), file := q.file, known := q.known,
                line := q.line } := by
        simp only [DeepCopyWithLineOffset, hk, Bool.not_true, Bool.false_eq_true, if_false,
          hneg, hcopy]
      refine ⟨⟨fun ⟨e, he⟩ => ?_, fun h => ?_⟩, fun _ _ => ?_⟩
      · rw [hres] at he
        cases he
      · rcases h with h | h
        · cases h
        · exact absurd h hneg
      · refine ⟨_, N, hres, hN, ?_, ?_, ?_, rfl, rfl⟩
        · simpa [IsKnown] using hqk
        · exact LineNum_some_ok _ _ hqk rfl
        · intro h1 h2
          rw [wrapInt_eq_self (N + k) (by omega) h2]
          exact LineNum_some_ok _ _ hqk rfl

/-- Instance of `DeepCopyWithLineOffset_spec` at line 5 of file `a` with offset 3, which
gives line 8 of file `a`. -/
theorem DeepCopyWithLineOffset_spec_witness :
    Initialized (some { lineNum := some 5, file := "a", line := "x: 1", known := true }) ∧
    DeepCopyWithLineOffset
        (some { lineNum := some 5, file := "a", line := "x: 1", known := true }) 3
      = .ok { lineNum := some 8, file := "a", line := "x: 1", known := true } ∧
    ((∃ e, DeepCopyWithLineOffset
        (some { lineNum := some 5, file := "a", line := "x: 1", known := true }) 3 = .error e) ↔
      (IsKnown (some { lineNum := some 5, file := "a", line := "x: 1", known := true }) = false ∨
        (3 : Int) < 0)) ∧
    (∃ q N, DeepCopyWithLineOffset
          (some { lineNum := some 5, file := "a", line := "x: 1", known := true }) 3 = .ok q ∧
        LineNum (some { lineNum := some 5, file := "a", line := "x: 1", known := true }) = .ok N ∧
        IsKnown (some q) = true ∧
        LineNum (some q) = .ok (wrapInt (N + 3)) ∧
        (minInt ≤ N → N + 3 ≤ maxInt → LineNum (some q) = .ok (N + 3)) ∧
        GetFile (some q)
          = GetFile (some { lineNum := some 5, file := "a", line := "x: 1", known := true }) ∧
        GetLine (some q)
          = GetLine (some { lineNum := some 5, file := "a", line := "x: 1", known := true })) := by
  have hi : Initialized (some { lineNum := some 5, file := "a", line := "x: 1", known := true }) :=
    fun _ => ⟨5, rfl⟩
  exact ⟨hi, by decide, (DeepCopyWithLineOffset_spec _ 3 hi).1,
    (DeepCopyWithLineOffset_spec _ 3 hi).2 rfl (by decide)⟩

theorem scanComments_append (N : Int) (pad : Nat) (cs1 cs2 : List Meta) (s : String) :
    scanComments N pad (cs1 ++ cs2) s = scanComments N pad cs2 (scanComments N pad cs1 s) := by
  simp [scanComments, List.foldl_append]

theorem scanComments_no_match (N : Int) (pad : Nat) (cs : List Meta) (s : String)
    (h : ∀ c ∈ cs, matchesLine N c = false) : scanComments N pad cs s = s := by
  induction cs generalizing s with
  | nil => rfl
  | cons c cs ih =>
    have hc := h c (List.mem_cons_self _ _)
    simp only [scanComments, List.foldl_cons, hc, Bool.false_eq_true, if_false]
    exact ih s (fun d hd => h d (List.mem_cons_of_mem _ hd))

theorem scanComments_last (N : Int) (pad : Nat) (cs : List Meta)
    (h : ∃ c ∈ cs, matchesLine N c = true) :
    ∃ (i : Nat) (c : Meta), cs[i]? = some c ∧ matchesLine N c = true ∧
      (∀ (j : Nat) (d : Meta), i < j → cs[j]? = some d → matchesLine N d = false) ∧
      ∀ s, scanComments N pad cs s = renderComment pad c := by
  induction cs with
  | nil =>
    obtain ⟨c, hc, _⟩ := h
    cases hc
  | cons c cs ih =>
    by_cases hrest : ∃ d ∈ cs, matchesLine N d = true
    · obtain ⟨i, d, hd, hm, hlast, hscan⟩ := ih hrest
      refine ⟨i + 1, d, by simpa using hd, hm, ?_, ?_⟩
      · intro j e hj he
        cases j with
        | zero => omega
        | succ j => exact hlast j e (by omega) (by simpa using he)
      · intro s
        simp only [scanComments, List.foldl_cons]
        exact hscan _
    · have hnone : ∀ d ∈ cs, matchesLine N d = false := by
        intro d hd
        cases hm : matchesLine N d with
        | false => rfl
        | true => exact absurd ⟨d, hd, hm⟩ hrest
      have hc : matchesLine N c = true := by
        obtain ⟨d, hd, hm⟩ := h
        rcases List.mem_cons.mp hd with rfl | hd
        · exact hm
        · rw [hnone d hd] at hm; cases hm
      refine ⟨0, c, by simp, hc, ?_, ?_⟩
      · intro j e hj he
        cases j with
        | zero => omega
        | succ j =>
          have he' : cs[j]? = some e := by simpa using he
          exact hnone e (List.getElem?_mem he')
      · intro s
        simp only [scanComments, List.foldl_cons, hc, if_true]
        exact scanComments_no_match N pad cs _ hnone

theorem PopulateAnnotationPositionFromNode_eq (a n : Position) (N : Int) (cs : List Meta)
    (ha : LineNum (some a) = .ok N) (hcs : ∀ c ∈ cs, Initialized c.Position) :
    PopulateAnnotationPositionFromNode (some a) (some n) cs =
      .ok { a with
        file := n.file
        line := scanComments N (if n.known = true then leadingSpaces n.line else 0) cs "" } := by
  unfold PopulateAnnotationPositionFromNode
  cases hk : n.known with
  | true =>
    simp only [IsKnown, hk, if_true, GetLine, bind, Except.bind, pure, Except.pure,
      leftPadding_eq, populateLoop_eq (some a) N ha _ cs hcs, GetFile, SetFile, SetLine]
  | false =>
    have h0 : (0 : Int) = ((0 : Nat) : Int) := rfl
    simp only [IsKnown, hk, Bool.false_eq_true, if_false, bind, Except.bind, pure, Except.pure,
      GetFile, SetFile, SetLine]
    rw [h0, populateLoop_eq (some a) N ha _ cs hcs]

theorem matchesLine_iff (N : Int) (c : Meta) :
    matchesLine N c = true ↔ (IsKnown c.Position = true ∧ LineNum c.Position = .ok N) := by
  simp [matchesLine]

/-! ## Approximation of an annotation's position -/

/-- C9: for every known annotation Position `a` with line number `N`, node Position `n`
and comments `cs` (with initialized Positions), `PopulateAnnotationPositionFromNode`
returns, and the line text of its result is empty if no comment of `cs` has a known
Position with line number `N`; otherwise it is `pad ++ "#" ++ Data` for a matching
comment, `pad` being as many spaces as `n`'s line text has leading spaces when `n` is
known, and no space when `n` is unknown.  Node line `"  foo:"`, comment `" my note"` at
line 5 and annotation line 5 give `"  # my note"`. -/
theorem PopulateAnnotationPositionFromNode_line (a n : Position) (N : Int) (cs : List Meta)
    (ha : LineNum (some a) = .ok N) (hcs : ∀ c ∈ cs, Initialized c.Position) :
    (∃ r, PopulateAnnotationPositionFromNode (some a) (some n) cs = .ok r ∧
      ((∀ c ∈ cs, ¬ (IsKnown c.Position = true ∧ LineNum c.Position = .ok N)) →
        GetLine (some r) = .ok "") ∧
      ((∃ c ∈ cs, IsKnown c.Position = true ∧ LineNum c.Position = .ok N) →
        ∃ c ∈ cs, (IsKnown c.Position = true ∧ LineNum c.Position = .ok N) ∧
          GetLine (some r) = .ok
            (spaces (if IsKnown (some n) = true then leadingSpaces n.line else 0)
              ++ "#" ++ c.Data))) ∧
    PopulateAnnotationPositionFromNode (some { lineNum := some 5, known := true })
        (some { lineNum := some 6, line := "  foo:", known := true })
        [{ Data := " my note", Position := some { lineNum := some 5, known := true } }]
      = .ok { lineNum := some 5, line := "  # my note", known := true } ∧
    PopulateAnnotationPositionFromNode (some { lineNum := some 5, line := "old", known := true })
        (some { lineNum := some 6, line := "  foo:", known := true })
        [{ Data := " my note", Position := some { lineNum := some 7, known := true } }]
      = .ok { lineNum := some 5, line := "", known := true } := by
  refine ⟨?_, by decide, by decide⟩
  refine ⟨_, PopulateAnnotationPositionFromNode_eq a n N cs ha hcs, ?_, ?_⟩
  · intro hno
    have hnone : ∀ c ∈ cs, matchesLine N c = false := by
      intro c hc
      cases hm : matchesLine N c with
      | false => rfl
      | true => exact absurd ((matchesLine_iff N c).mp hm) (hno c hc)
    simp only [GetLine]
    rw [scanComments_no_match N _ cs "" hnone]
  · rintro ⟨c, hc, hm⟩
    obtain ⟨i, d, hd, hdm, _, hscan⟩ :=
      scanComments_last N (if n.known = true then leadingSpaces n.line else 0) cs
        ⟨c, hc, (matchesLine_iff N c).mpr hm⟩
    refine ⟨d, List.getElem?_mem hd, (matchesLine_iff N d).mp hdm, ?_⟩
    simp only [GetLine, IsKnown]
    rw [hscan ""]
    rfl

/-- Instance of `PopulateAnnotationPositionFromNode_line` at the annotation of line 5, the
node line `"  foo:"` and the single comment `" my note"` of line 5. -/
theorem PopulateAnnotationPositionFromNode_line_witness :
    ∃ r, PopulateAnnotationPositionFromNode (some { lineNum := some 5, known := true })
        (some { lineNum := some 6, line := "  foo:", known := true })
        [{ Data := " my note", Position := some { lineNum := some 5, known := true } }] = .ok r ∧
      GetLine (some r) = .ok "  # my note" := by
  obtain ⟨r, hr, _, hsome⟩ :=
    (PopulateAnnotationPositionFromNode_line { lineNum := some 5, known := true }
      { lineNum := some 6, line := "  foo:", known := true } 5
      [{ Data := " my note", Position := some { lineNum := some 5, known := true } }] rfl
      (fun c hc => by
        rw [List.mem_singleton] at hc
        subst hc
        exact fun _ => ⟨5, rfl⟩)).1
  obtain ⟨c, hc, _, hline⟩ := hsome ⟨_, List.mem_singleton.mpr rfl, rfl, rfl⟩
  rw [List.mem_singleton] at hc
  subst hc
  exact ⟨r, hr, hline⟩

/-- C10: last match wins.  For every known annotation Position `a` with line number `N`,
node Position `n` and comments with initialized Positions: if `cs` holds a comment whose
known line number is `N`, the line text of the result on `cs` is rendered from the `Data`
of the matching comment of greatest index in `cs`; and the result on `cs1 ++ cs2` is the
result on `cs2` when `cs2` holds a match, the result on `cs1` otherwise.  With two
comments of line 5, the later one gives the text. -/
theorem PopulateAnnotationPositionFromNode_last_match (a n : Position) (N : Int)
    (cs cs1 cs2 : List Meta) (ha : LineNum (some a) = .ok N)
    (hcs : ∀ c ∈ cs, Initialized c.Position)
    (hcs1 : ∀ c ∈ cs1, Initialized c.Position) (hcs2 : ∀ c ∈ cs2, Initialized c.Position) :
    ((∃ c ∈ cs, IsKnown c.Position = true ∧ LineNum c.Position = .ok N) →
      ∃ (r : Position) (i : Nat) (c : Meta),
        PopulateAnnotationPositionFromNode (some a) (some n) cs = .ok r ∧
        cs[i]? = some c ∧ (IsKnown c.Position = true ∧ LineNum c.Position = .ok N) ∧
        (∀ (j : Nat) (d : Meta), i < j → cs[j]? = some d →
          ¬ (IsKnown d.Position = true ∧ LineNum d.Position = .ok N)) ∧
        GetLine (some r) = .ok
          (spaces (if IsKnown (some n) = true then leadingSpaces n.line else 0)
            ++ "#" ++ c.Data)) ∧
    (∃ r, PopulateAnnotationPositionFromNode (some a) (some n) (cs1 ++ cs2) = .ok r ∧
      ((∃ c ∈ cs2, IsKnown c.Position = true ∧ LineNum c.Position = .ok N) →
        PopulateAnnotationPositionFromNode (some a) (some n) cs2 = .ok r) ∧
      ((∀ c ∈ cs2, ¬ (IsKnown c.Position = true ∧ LineNum c.Position = .ok N)) →
        PopulateAnnotationPositionFromNode (some a) (some n) cs1 = .ok r)) ∧
    PopulateAnnotationPositionFromNode (some { lineNum := some 5, known := true })
        (some { lineNum := some 6, line := "  foo:", known := true })
        [{ Data := " first", Position := some { lineNum := some 5, known := true } },
         { Data := " second", Position := some { lineNum := some 5, known := true } },
         { Data := " other", Position := some { lineNum := some 7, known := true } }]
      = .ok { lineNum := some 5, line := "  # second", known := true } := by
  refine ⟨?_, ?_, by decide⟩
  · rintro ⟨c, hc, hm⟩
    obtain ⟨i, d, hd, hdm, hlast, hscan⟩ :=
      scanComments_last N (if n.known = true then leadingSpaces n.line else 0) cs
        ⟨c, hc, (matchesLine_iff N c).mpr hm⟩
    refine ⟨_, i, d, PopulateAnnotationPositionFromNode_eq a n N cs ha hcs, hd,
      (matchesLine_iff N d).mp hdm, ?_, ?_⟩
    · intro j e hj he hme
      have := hlast j e hj he
      rw [(matchesLine_iff N e).mpr hme] at this
      cases this
    · simp only [GetLine, IsKnown]
      rw [hscan ""]
      rfl
  · have happ : ∀ c ∈ cs1 ++ cs2, Initialized c.Position := by
      intro c hc
      rcases List.mem_append.mp hc with h | h
      · exact hcs1 c h
      · exact hcs2 c h
    refine ⟨_, PopulateAnnotationPositionFromNode_eq a n N (cs1 ++ cs2) ha happ, ?_, ?_⟩
    · rintro ⟨c, hc, hm⟩
      obtain ⟨i, d, _, _, _, hscan⟩ :=
        scanComments_last N (if n.known = true then leadingSpaces n.line else 0) cs2
          ⟨c, hc, (matchesLine_iff N c).mpr hm⟩
      rw [PopulateAnnotationPositionFromNode_eq a n N cs2 ha hcs2, scanComments_append,
        hscan, hscan]
    · intro hno
      have hnone : ∀ c ∈ cs2, matchesLine N c = false := by
        intro c hc
        cases hm : matchesLine N c with
        | false => rfl
        | true => exact absurd ((matchesLine_iff N c).mp hm) (hno c hc)
      rw [PopulateAnnotationPositionFromNode_eq a n N cs1 ha hcs1, scanComments_append,
        scanComments_no_match N _ cs2 _ hnone]

/-- Instance of `PopulateAnnotationPositionFromNode_last_match` at the annotation of line
5 and the comments `" first"` and `" second"`, both of line 5: the text is rendered from
`" second"`, alone or after `" first"`. -/
theorem PopulateAnnotationPositionFromNode_last_match_witness :
    (∃ (r : Position) (i : Nat) (c : Meta),
      PopulateAnnotationPositionFromNode (some { lineNum := some 5, known := true })
        (some { lineNum := some 6, line := "  foo:", known := true })
        [{ Data := " first", Position := some { lineNum := some 5, known := true } },
         { Data := " second", Position := some { lineNum := some 5, known := true } }] = .ok r ∧
      [({ Data := " first", Position := some { lineNum := some 5, known := true } } : Meta),
         { Data := " second", Position := some { lineNum := some 5, known := true } }][i]?
        = some c ∧
      (IsKnown c.Position = true ∧ LineNum c.Position = .ok 5) ∧
      (∀ (j : Nat) (d : Meta), i < j →
        [({ Data := " first", Position := some { lineNum := some 5, known := true } } : Meta),
         { Data := " second", Position := some { lineNum := some 5, known := true } }][j]?
          = some d →
        ¬ (IsKnown d.Position = true ∧ LineNum d.Position = .ok 5)) ∧
      GetLine (some r) = .ok
        (spaces (if IsKnown (some { lineNum := some 6, line := "  foo:", known := true }) = true
            then leadingSpaces "  foo:" else 0) ++ "#" ++ c.Data)) ∧
    (∃ r, PopulateAnnotationPositionFromNode (some { lineNum := some 5, known := true })
        (some { lineNum := some 6, line := "  foo:", known := true })
        ([{ Data := " first", Position := some { lineNum := some 5, known := true } }] ++
         [{ Data := " second", Position := some { lineNum := some 5, known := true } }]) = .ok r ∧
      PopulateAnnotationPositionFromNode (some { lineNum := some 5, known := true })
        (some { lineNum := some 6, line := "  foo:", known := true })
        [{ Data := " second", Position := some { lineNum := some 5, known := true } }] = .ok r) := by
  have hinit : ∀ cs : List Meta,
      (∀ c ∈ cs, c.Position = some { lineNum := some 5, known := true }) →
      ∀ c ∈ cs, Initialized c.Position := by
    intro cs h c hc
    rw [h c hc]
    exact fun _ => ⟨5, rfl⟩
  have h := PopulateAnnotationPositionFromNode_last_match { lineNum := some 5, known := true }
    { lineNum := some 6, line := "  foo:", known := true } 5
    [{ Data := " first", Position := some { lineNum := some 5, known := true } },
     { Data := " second", Position := some { lineNum := some 5, known := true } }]
    [{ Data := " first", Position := some { lineNum := some 5, known := true } }]
    [{ Data := " second", Position := some { lineNum := some 5, known := true } }] rfl
    (hinit _ (by simp)) (hinit _ (by simp)) (hinit _ (by simp))
  refine ⟨h.1 ⟨_, List.mem_cons_self _ _, rfl, rfl⟩, ?_⟩
  obtain ⟨r, hr, hmatch, _⟩ := h.2.1
  exact ⟨r, hr, hmatch ⟨_, List.mem_singleton.mpr rfl, rfl, rfl⟩⟩

/-! ## Textual and numeric comparison of line numbers -/

theorem decide_fmtD_eq (m n : Int) : decide (fmtD m = fmtD n) = decide (m = n) := by
  by_cases h : m = n
  · simp [h]
  · have : fmtD m ≠ fmtD n := fun e => h (fmtD_injective _ _ e)
    simp [h, this]

theorem populateLoop_eq_numeric (a : Option Position) (leftPadding : Int) (cs : List Meta)
    (start : String) :
    populateLoop a leftPadding cs start = populateLoopNumeric a leftPadding cs start := by
  induction cs generalizing start with
  | nil => rfl
  | cons c cs ih =>
    unfold populateLoop populateLoopNumeric
    by_cases hk : IsKnown c.Position = true
    · simp only [hk, if_true, AsIntString]
      cases hm : LineNum c.Position with
      | error e => rfl
      | ok m =>
        cases hn : LineNum a with
        | error e => rfl
        | ok n =>
          simp only [bind, Except.bind, pure, Except.pure, decide_fmtD_eq]
          by_cases hmn : m = n
          · simp only [hmn, decide_True, if_true]
            cases repeatSpace leftPadding with
            | error e => rfl
            | ok pad => exact ih _
          · simp only [hmn, decide_False, Bool.false_eq_true, if_false]
            exact ih _
    · simp only [hk, if_false, bind, Except.bind, pure, Except.pure, Bool.false_eq_true]
      exact ih _

/-- C17: the comparison of decimal renderings made by
`PopulateAnnotationPositionFromNode` is a comparison of numbers.  For a known comment
Position with line number `m` and a known annotation Position with line number `N`,
`AsIntString()` of the comment is the decimal rendering of `N` iff `m = N`; and the
function in which the string test is replaced by the equality of the line numbers gives
the same result (value or panic) on every input. -/
theorem PopulateAnnotationPositionFromNode_numeric :
    (∀ (c a : Option Position) (m N : Int), LineNum c = .ok m → LineNum a = .ok N →
      (AsIntString c = .ok (fmtD N) ↔ m = N)) ∧
    (∀ (a n : Option Position) (cs : List Meta),
      PopulateAnnotationPositionFromNode a n cs
        = PopulateAnnotationPositionFromNodeNumeric a n cs) := by
  constructor
  · intro c a m N hc _
    have hk := known_of_LineNum c m hc
    simp only [AsIntString, hk, if_true, hc, bind, Except.bind, pure, Except.pure]
    constructor
    · intro h
      exact fmtD_injective _ _ (Except.ok.inj h)
    · intro h
      rw [h]
  · intro a n cs
    unfold PopulateAnnotationPositionFromNode PopulateAnnotationPositionFromNodeNumeric
    simp only [populateLoop_eq_numeric]

/-- Instance of `PopulateAnnotationPositionFromNode_numeric` at a comment of line 5 and
annotations of lines 5 and 50. -/
theorem PopulateAnnotationPositionFromNode_numeric_witness :
    (AsIntString (some { lineNum := some 5, known := true }) = .ok (fmtD 5) ↔ (5 : Int) = 5) ∧
    (AsIntString (some { lineNum := some 5, known := true }) = .ok (fmtD 50) ↔ (5 : Int) = 50) :=
  ⟨PopulateAnnotationPositionFromNode_numeric.1 (some { lineNum := some 5, known := true })
      (some { lineNum := some 5, known := true }) 5 5 rfl rfl,
   PopulateAnnotationPositionFromNode_numeric.1 (some { lineNum := some 5, known := true })
      (some { lineNum := some 50, known := true }) 5 50 rfl rfl⟩

/-! ## Copies and the memory flag -/

/-- C18: `DeepCopy` does not carry the flag `fromMemory`.  The copy of every non-nil
Position reports `FromMemory()` false; the copy of a Position built by
`NewUnknownPositionWithKeyVal` keeps its line text while the original reports
`FromMemory()` true; and the copy has the field values of the original exactly when the
original has `FromMemory()` false. -/
theorem DeepCopy_drops_fromMemory (p : Position) (isPrint : Char → Bool) (k v : GoValue)
    (separator : String) :
    (∃ q, DeepCopy (some p) = some q ∧ FromMemory (some q) = .ok false) ∧
    (∃ q, DeepCopy (some (NewUnknownPositionWithKeyVal isPrint k v separator)) = some q ∧
      GetLine (some q) = GetLine (some (NewUnknownPositionWithKeyVal isPrint k v separator)) ∧
      FromMemory (some q) = .ok false ∧
      FromMemory (some (NewUnknownPositionWithKeyVal isPrint k v separator)) = .ok true) ∧
    (DeepCopy (some p) = some p ↔ FromMemory (some p) = .ok false) := by
  refine ⟨?_, ?_, ?_⟩
  · cases hl : p.lineNum with
    | none =>
      exact ⟨{ file := p.file, known := p.known, line := p.line }, by simp [DeepCopy, hl], rfl⟩
    | some n =>
      exact ⟨{ lineNum := some n, file := p.file, known := p.known, line := p.line },
        by simp [DeepCopy, hl], rfl⟩
  · exact ⟨_, rfl, rfl, rfl, rfl⟩
  · obtain ⟨l, f, t, kn, fm⟩ := p
    cases l <;> cases fm <;> simp [DeepCopy, FromMemory]

/-! ## Algebra of adjacency and offsets -/

theorem wrapInt_near_neg (x : Int) :
    (-1 ≤ wrapInt x ∧ 1 ≥ wrapInt x) ↔ (-1 ≤ wrapInt (-x) ∧ 1 ≥ wrapInt (-x)) := by
  unfold wrapInt
  omega

/-- C19: `IsNextTo` is symmetric: for all Positions `p` and `q`, known, unknown or nil,
`p.IsNextTo(q)` and `q.IsNextTo(p)` give the same result. -/
theorem IsNextTo_symm (p q : Option Position) : IsNextTo p q = IsNextTo q p := by
  unfold IsNextTo
  cases hp : IsKnown p <;> cases hq : IsKnown q
  · rfl
  · rfl
  · rfl
  · simp only [Bool.and_self, if_true]
    have hp' : ∃ p', p = some p' := by
      cases p with
      | none => simp [IsKnown] at hp
      | some p' => exact ⟨p', rfl⟩
    have hq' : ∃ q', q = some q' := by
      cases q with
      | none => simp [IsKnown] at hq
      | some q' => exact ⟨q', rfl⟩
    obtain ⟨p', rfl⟩ := hp'
    obtain ⟨q', rfl⟩ := hq'
    simp only [GetFile, bind, Except.bind, pure, Except.pure]
    by_cases hf : p'.file = q'.file
    · have hf' : q'.file = p'.file := hf.symm
      simp only [hf, if_true]
      cases ha : LineNum (some p') with
      | error e =>
        cases hb : LineNum (some q') with
        | error e' =>
          simp only [LineNum, hp, hq, Bool.not_true, Bool.false_eq_true, if_false] at ha hb
          cases hpl : p'.lineNum <;> cases hql : q'.lineNum <;> simp [hpl, hql] at ha hb
          rw [← ha, ← hb]
        | ok b => rfl
      | ok a =>
        cases hb : LineNum (some q') with
        | error e' => rfl
        | ok b =>
          have hsub : b - a = -(a - b) := by omega
          have := wrapInt_near_neg (a - b)
          rw [← hsub] at this
          by_cases hd : -1 ≤ wrapInt (a - b) ∧ 1 ≥ wrapInt (a - b)
          · simp only [hd, this.mp hd, and_self, if_true]
          · have hd' : ¬ (-1 ≤ wrapInt (b - a) ∧ 1 ≥ wrapInt (b - a)) := fun h => hd (this.mpr h)
            simp only [hd, hd', if_false]
    · have hf' : ¬ q'.file = p'.file := fun h => hf h.symm
      simp only [hf, hf', if_false]

theorem DeepCopyWithLineOffset_known (p : Position) (a k : Int)
    (hp : LineNum (some p) = .ok a) (hk : 0 ≤ k) :
    DeepCopyWithLineOffset (some p) k =
      .ok { lineNum := some (wrapInt (a + k)), file := p.file, line := p.line, known := true } := by
  obtain ⟨q, hq, hqk, hql⟩ := (LineNum_ok_iff (some p) a).mp hp
  cases hq
  have hneg : ¬ k < 0 := by omega
  simp [DeepCopyWithLineOffset, IsKnown, hqk, hneg, DeepCopy, hql]

theorem wrapInt_add_wrapInt (a j k : Int) : wrapInt (wrapInt (a + j) + k) = wrapInt (a + (j + k)) := by
  unfold wrapInt
  omega

theorem wrapInt_sub_wrapInt (a c k : Int) :
    wrapInt (wrapInt (a + k) - wrapInt (c + k)) = wrapInt (a - c) := by
  unfold wrapInt
  omega

/-- C20 (as stated, refuted): with `j` the largest `int` and `k = 1` the sum `j + k`
computed in Go is the smallest `int`, so the copy of line 5 with offset `j + k` panics
with "Unexpected line offset", while the copy with offset `j` copied again with offset
`k` is returned. -/
theorem DeepCopyWithLineOffset_sum_wraps :
    DeepCopyWithLineOffset (some { lineNum := some 5, known := true }) 9223372036854775807
      = .ok { lineNum := some (-9223372036854775804), known := true } ∧
    DeepCopyWithLineOffset (some { lineNum := some (-9223372036854775804), known := true }) 1
      = .ok { lineNum := some (-9223372036854775803), known := true } ∧
    wrapInt (9223372036854775807 + 1) = -9223372036854775808 ∧
    DeepCopyWithLineOffset (some { lineNum := some 5, known := true })
        (wrapInt (9223372036854775807 + 1))
      = .error (.panic "Unexpected line offset") := by
  decide

/-- C20 (amended): offsets preserve adjacency and, when their sum is an `int`, compose
additively.  For known Positions `p` and `q` and offsets `j, k ≥ 0`: the copies of `p`
and `q` with offset `k` are next to each other exactly when `p` and `q` are; if `j + k`
does not exceed the largest `int`, the copy with offset `j` copied again with offset `k`
is the copy with offset `j + k`, the sum being the one Go computes (same file, line
text, known flag and line number); and the copy with offset 0 is `DeepCopy` when the
line number of `p` is a Go `int`. -/
theorem DeepCopyWithLineOffset_algebra (p q : Position) (a c j k : Int)
    (hp : LineNum (some p) = .ok a) (hq : LineNum (some q) = .ok c)
    (hj : 0 ≤ j) (hk : 0 ≤ k) :
    (∃ p' q', DeepCopyWithLineOffset (some p) k = .ok p' ∧
      DeepCopyWithLineOffset (some q) k = .ok q' ∧
      IsNextTo (some p') (some q') = IsNextTo (some p) (some q)) ∧
    (j + k ≤ maxInt →
      ∃ pj pjk r, DeepCopyWithLineOffset (some p) j = .ok pj ∧
        DeepCopyWithLineOffset (some pj) k = .ok pjk ∧
        DeepCopyWithLineOffset (some p) (wrapInt (j + k)) = .ok r ∧
        GetFile (some pjk) = GetFile (some r) ∧ GetLine (some pjk) = GetLine (some r) ∧
        IsKnown (some pjk) = IsKnown (some r) ∧ LineNum (some pjk) = LineNum (some r) ∧
        pjk = r) ∧
    (minInt ≤ a → a ≤ maxInt →
      ∃ r, DeepCopyWithLineOffset (some p) 0 = .ok r ∧ DeepCopy (some p) = some r) := by
  obtain ⟨_, hp1, hpk, hpl⟩ := (LineNum_ok_iff (some p) a).mp hp
  cases hp1
  obtain ⟨_, hq1, hqk, hql⟩ := (LineNum_ok_iff (some q) c).mp hq
  cases hq1
  refine ⟨?_, ?_, ?_⟩
  · refine ⟨_, _, DeepCopyWithLineOffset_known p a k hp hk,
      DeepCopyWithLineOffset_known q c k hq hk, ?_⟩
    rw [IsNextTo_known _ _ (wrapInt (a + k)) (wrapInt (c + k)) rfl rfl rfl rfl,
      IsNextTo_known p q a c hpk hqk hpl hql, wrapInt_sub_wrapInt]
  · intro hjk
    have hsum : wrapInt (j + k) = j + k :=
      wrapInt_eq_self (j + k) (by unfold minInt; omega) hjk
    have h1 := DeepCopyWithLineOffset_known p a j hp hj
    have h2 := DeepCopyWithLineOffset_known
      { lineNum := some (wrapInt (a + j)), file := p.file, line := p.line, known := true }
      (wrapInt (a + j)) k rfl hk
    have h3 := DeepCopyWithLineOffset_known p a (j + k) hp (by omega)
    rw [wrapInt_add_wrapInt] at h2
    rw [hsum]
    exact ⟨_, _, _, h1, h2, h3, rfl, rfl, rfl, rfl, rfl⟩
  · intro h1 h2
    refine ⟨_, DeepCopyWithLineOffset_known p a 0 hp (le_refl _), ?_⟩
    rw [Int.add_zero, wrapInt_eq_self a h1 h2]
    simp [DeepCopy, hpl, hpk]

/-- Instance of `DeepCopyWithLineOffset_algebra` at lines 5 and 6 of file `a` with the
offsets 2 and 3. -/
theorem DeepCopyWithLineOffset_algebra_witness :
    (∃ p' q', DeepCopyWithLineOffset (some { lineNum := some 5, file := "a", known := true }) 3
        = .ok p' ∧
      DeepCopyWithLineOffset (some { lineNum := some 6, file := "a", known := true }) 3
        = .ok q' ∧
      IsNextTo (some p') (some q')
        = IsNextTo (some { lineNum := some 5, file := "a", known := true })
            (some { lineNum := some 6, file := "a", known := true })) ∧
    (∃ r, DeepCopyWithLineOffset (some { lineNum := some 5, file := "a", known := true }) 0
        = .ok r ∧
      DeepCopy (some { lineNum := some 5, file := "a", known := true }) = some r) ∧
    ((2 : Int) + 3 ≤ maxInt ∧
      ∃ pj, DeepCopyWithLineOffset (some { lineNum := some 5, file := "a", known := true }) 2
          = .ok pj ∧
        DeepCopyWithLineOffset (some pj) 3
          = DeepCopyWithLineOffset (some { lineNum := some 5, file := "a", known := true })
              (wrapInt (2 + 3))) := by
  have h := DeepCopyWithLineOffset_algebra { lineNum := some 5, file := "a", known := true }
    { lineNum := some 6, file := "a", known := true } 5 6 2 3 rfl rfl (by decide) (by decide)
  refine ⟨h.1, h.2.2 (by decide) (by decide), by decide, ?_⟩
  obtain ⟨pj, pjk, r, h1, h2, h3, _, _, _, _, he⟩ := h.2.1 (by decide)
  exact ⟨pj, h1, by rw [h2, h3, he]⟩

/-! ## The key/value constructor -/

theorem lowerhex_not_control (d : Nat) : isControl (lowerhex d) = false := by
  by_cases h : d < 16
  · interval_cases d <;> decide
  · have : lowerhex d = '0' := by
      unfold lowerhex
      exact List.getD_eq_default _ _ (by simp only [String.length_data] at *; simpa using Nat.le_of_not_lt h)
    rw [this]
    decide

theorem not_control_nil : ∀ c ∈ ([] : List Char), isControl c = false := by
  intro c hc
  cases hc

theorem not_control_cons (x : Char) (l : List Char) (hx : isControl x = false)
    (hl : ∀ c ∈ l, isControl c = false) : ∀ c ∈ x :: l, isControl c = false := by
  intro c hc
  rcases List.mem_cons.mp hc with rfl | h
  · exact hx
  · exact hl c h

theorem appendEscapedRune_not_control (isPrint : Char → Bool)
    (hprint : ∀ c, isPrint c = true → isControl c = false) (r : Char) :
    ∀ c ∈ appendEscapedRune isPrint r, isControl c = false := by
  have hbs : isControl (Char.ofNat 92) = false := by decide
  have esc : ∀ x : Char, isControl x = false →
      ∀ c ∈ [Char.ofNat 92, x], isControl c = false :=
    fun x hx => not_control_cons _ _ hbs (not_control_cons _ _ hx not_control_nil)
  have hex := lowerhex_not_control
  unfold appendEscapedRune
  by_cases h1 : r.toNat = 34 ∨ r.toNat = 92
  · rw [if_pos h1]
    exact esc r (by rcases h1 with h | h <;> simp [isControl, h])
  rw [if_neg h1]
  by_cases h2 : isPrint r = true
  · rw [if_pos h2]
    exact not_control_cons _ _ (hprint r h2) not_control_nil
  rw [if_neg h2]
  by_cases h3 : r.toNat = 7
  · rw [if_pos h3]; exact esc _ (by decide)
  rw [if_neg h3]
  by_cases h4 : r.toNat = 8
  · rw [if_pos h4]; exact esc _ (by decide)
  rw [if_neg h4]
  by_cases h5 : r.toNat = 12
  · rw [if_pos h5]; exact esc _ (by decide)
  rw [if_neg h5]
  by_cases h6 : r.toNat = 10
  · rw [if_pos h6]; exact esc _ (by decide)
  rw [if_neg h6]
  by_cases h7 : r.toNat = 13
  · rw [if_pos h7]; exact esc _ (by decide)
  rw [if_neg h7]
  by_cases h8 : r.toNat = 9
  · rw [if_pos h8]; exact esc _ (by decide)
  rw [if_neg h8]
  by_cases h9 : r.toNat = 11
  · rw [if_pos h9]; exact esc _ (by decide)
  rw [if_neg h9]
  by_cases h10 : r.toNat < 32 ∨ r.toNat = 127
  · rw [if_pos h10]
    exact not_control_cons _ _ hbs (not_control_cons _ _ (by decide)
      (not_control_cons _ _ (hex _) (not_control_cons _ _ (hex _) not_control_nil)))
  rw [if_neg h10]
  by_cases h11 : r.toNat < 65536
  · rw [if_pos h11]
    exact not_control_cons _ _ hbs (not_control_cons _ _ (by decide)
      (not_control_cons _ _ (hex _) (not_control_cons _ _ (hex _)
      (not_control_cons _ _ (hex _) (not_control_cons _ _ (hex _) not_control_nil)))))
  rw [if_neg h11]
  exact not_control_cons _ _ hbs (not_control_cons _ _ (by decide)
    (not_control_cons _ _ (hex _) (not_control_cons _ _ (hex _)
    (not_control_cons _ _ (hex _) (not_control_cons _ _ (hex _)
    (not_control_cons _ _ (hex _) (not_control_cons _ _ (hex _)
    (not_control_cons _ _ (hex _) (not_control_cons _ _ (hex _) not_control_nil)))))))))

theorem quote_not_control (isPrint : Char → Bool)
    (hprint : ∀ c, isPrint c = true → isControl c = false) (s : String) :
    ∀ c ∈ (quote isPrint s).data, isControl c = false := by
  intro c hc
  have hq : isControl (Char.ofNat 34) = false := by decide
  simp only [quote, List.mem_cons, List.mem_append, List.mem_flatMap, List.mem_singleton,
    List.not_mem_nil, or_false] at hc
  rcases hc with rfl | ⟨r, _, hr⟩ | rfl
  · exact hq
  · exact appendEscapedRune_not_control isPrint hprint r c hr
  · exact hq

theorem appendEscapedRune_head (isPrint : Char → Bool) (r : Char) (h2 : isPrint r = false) :
    (appendEscapedRune isPrint r).head? = some (Char.ofNat 92) := by
  unfold appendEscapedRune
  have h2' : ¬ isPrint r = true := by simp [h2]
  by_cases h1 : r.toNat = 34 ∨ r.toNat = 92
  · rw [if_pos h1]; rfl
  rw [if_neg h1, if_neg h2']
  by_cases h3 : r.toNat = 7
  · rw [if_pos h3]; rfl
  rw [if_neg h3]
  by_cases h4 : r.toNat = 8
  · rw [if_pos h4]; rfl
  rw [if_neg h4]
  by_cases h5 : r.toNat = 12
  · rw [if_pos h5]; rfl
  rw [if_neg h5]
  by_cases h6 : r.toNat = 10
  · rw [if_pos h6]; rfl
  rw [if_neg h6]
  by_cases h7 : r.toNat = 13
  · rw [if_pos h7]; rfl
  rw [if_neg h7]
  by_cases h8 : r.toNat = 9
  · rw [if_pos h8]; rfl
  rw [if_neg h8]
  by_cases h9 : r.toNat = 11
  · rw [if_pos h9]; rfl
  rw [if_neg h9]
  by_cases h10 : r.toNat < 32 ∨ r.toNat = 127
  · rw [if_pos h10]; rfl
  rw [if_neg h10]
  by_cases h11 : r.toNat < 65536
  · rw [if_pos h11]; rfl
  rw [if_neg h11]; rfl

/-- C13: for every key `k`, value `v` and separator, `NewUnknownPositionWithKeyVal`
returns a Position that is not known, is from memory, has an empty file, and whose line
text is the `%v` rendering of `k`, the separator, one space and the `%#v` rendering of
`v`.  For a string the `%#v` rendering is the string between double quotes with every
double quote and every control character written as a backslash escape, so that it
holds no control character (the table of printable characters, a parameter, marking no
control character printable).  `FromMemory()` is false on every Position returned by
`NewPosition` or `NewUnknownPosition`. -/
theorem NewUnknownPositionWithKeyVal_spec (isPrint : Char → Bool)
    (hprint : ∀ c, isPrint c = true → isControl c = false)
    (k v : GoValue) (separator s : String) (n : Int) :
    IsKnown (some (NewUnknownPositionWithKeyVal isPrint k v separator)) = false ∧
    FromMemory (some (NewUnknownPositionWithKeyVal isPrint k v separator)) = .ok true ∧
    GetFile (some (NewUnknownPositionWithKeyVal isPrint k v separator)) = .ok "" ∧
    GetLine (some (NewUnknownPositionWithKeyVal isPrint k v separator))
      = .ok (fmtV k ++ separator ++ " " ++ fmtSharpV isPrint v) ∧
    fmtSharpV isPrint (.str s)
      = String.mk (Char.ofNat 34 ::
          (s.data.flatMap (appendEscapedRune isPrint) ++ [Char.ofNat 34])) ∧
    appendEscapedRune isPrint (Char.ofNat 34) = [Char.ofNat 92, Char.ofNat 34] ∧
    (∀ c, isControl c = true →
      (appendEscapedRune isPrint c).head? = some (Char.ofNat 92)) ∧
    (∀ c ∈ (fmtSharpV isPrint (.str s)).data, isControl c = false) ∧
    (∀ p, NewPosition n = .ok p → FromMemory (some p) = .ok false) ∧
    FromMemory (some NewUnknownPosition) = .ok false := by
  refine ⟨rfl, rfl, rfl, rfl, rfl, rfl, ?_, quote_not_control isPrint hprint s, ?_, rfl⟩
  · intro c hc
    apply appendEscapedRune_head
    cases hp : isPrint c with
    | false => rfl
    | true => rw [hprint c hp] at hc; cases hc
  · intro p hp
    unfold NewPosition at hp
    split at hp
    · cases hp
    · cases hp
      rfl

/-- Instance of `NewUnknownPositionWithKeyVal_spec` at the key `key`, the separator `:`
and the value `a"b` followed by a line feed, with the printable ASCII characters as the
table of printable characters. -/
theorem NewUnknownPositionWithKeyVal_spec_witness :
    GetLine (some (NewUnknownPositionWithKeyVal
        (fun c => decide (32 ≤ c.toNat ∧ c.toNat < 127)) (.str "key") (.str "a\"b\n") ":"))
      = .ok "key: \"a\\\"b\\n\"" ∧
    (∀ c ∈ (fmtSharpV (fun c => decide (32 ≤ c.toNat ∧ c.toNat < 127)) (.str "a\"b\n")).data,
      isControl c = false) ∧
    (∀ p, NewPosition 12 = .ok p → FromMemory (some p) = .ok false) := by
  have hprint : ∀ c : Char,
      (fun c : Char => decide (32 ≤ c.toNat ∧ c.toNat < 127)) c = true → isControl c = false := by
    intro c hc
    simp only [decide_eq_true_eq] at hc
    simp only [isControl, Bool.or_eq_false_iff, Bool.and_eq_false_iff, decide_eq_false_iff_not]
    omega
  have h := NewUnknownPositionWithKeyVal_spec (fun c => decide (32 ≤ c.toNat ∧ c.toNat < 127))
    hprint (.str "key") (.str "a\"b\n") ":" "a\"b\n" 12
  exact ⟨h.2.2.2.1, h.2.2.2.2.2.2.2.1, h.2.2.2.2.2.2.2.2.1⟩

/-! ## Failure of the approximation -/

theorem LineNum_unknown (a : Option Position) (h : IsKnown a = false) :
    LineNum a = .error (.panic "Position is unknown") := by
  simp [LineNum, h]

theorem populateLoop_all_unknown (a : Option Position) (pad : Int) (cs : List Meta)
    (h : ∀ c ∈ cs, IsKnown c.Position = false) (start : String) :
    populateLoop a pad cs start = .ok start := by
  induction cs generalizing start with
  | nil => rfl
  | cons c cs ih =>
    unfold populateLoop
    simp only [h c (List.mem_cons_self _ _), Bool.false_eq_true, if_false, bind, Except.bind,
      pure, Except.pure]
    exact ih (fun d hd => h d (List.mem_cons_of_mem _ hd)) _

theorem populateLoop_unknown_annotation (a : Option Position) (ha : IsKnown a = false)
    (pad : Int) (cs : List Meta) (hcs : ∀ c ∈ cs, Initialized c.Position)
    (h : ∃ c ∈ cs, IsKnown c.Position = true) (start : String) :
    populateLoop a pad cs start = .error (.panic "Position is unknown") := by
  induction cs generalizing start with
  | nil =>
    obtain ⟨c, hc, _⟩ := h
    cases hc
  | cons c cs ih =>
    unfold populateLoop
    by_cases hk : IsKnown c.Position = true
    · obtain ⟨m, hm⟩ := hcs c (List.mem_cons_self _ _) hk
      simp only [hk, if_true, AsIntString, hm, LineNum_unknown a ha, bind, Except.bind, pure,
        Except.pure]
    · have hk' : IsKnown c.Position = false := by simpa using hk
      simp only [hk', Bool.false_eq_true, if_false, bind, Except.bind, pure, Except.pure]
      apply ih (fun d hd => hcs d (List.mem_cons_of_mem _ hd))
      obtain ⟨d, hd, hdk⟩ := h
      rcases List.mem_cons.mp hd with rfl | hd
      · rw [hk'] at hdk; cases hdk
      · exact ⟨d, hd, hdk⟩

/-- C12 (as stated, refuted): with an unknown annotation Position and a comment whose
Position is known, `PopulateAnnotationPositionFromNode` panics with "Position is
unknown". -/
theorem PopulateAnnotationPositionFromNode_unknown_annotation_panics :
    PopulateAnnotationPositionFromNode (some NewUnknownPosition) (some NewUnknownPosition)
        [{ Data := " note", Position := some { lineNum := some 5, known := true } }]
      = .error (.panic "Position is unknown") := by
  decide

/-- C12 (amended): for a non-nil node Position, known or unknown, and comments with
initialized Positions (known, unknown or nil): when the annotation Position is known
with line number `N`, `PopulateAnnotationPositionFromNode` returns a Position, whose line
text is empty if no comment matches `N`; when the annotation Position is non-nil and
unknown, it returns (with an empty line text) if no comment has a known Position and
panics with "Position is unknown" if one has. -/
theorem PopulateAnnotationPositionFromNode_total (a n : Position) (cs : List Meta)
    (hcs : ∀ c ∈ cs, Initialized c.Position) :
    (∀ N : Int, LineNum (some a) = .ok N →
      ∃ r, PopulateAnnotationPositionFromNode (some a) (some n) cs = .ok r ∧
        ((∀ c ∈ cs, ¬ (IsKnown c.Position = true ∧ LineNum c.Position = .ok N)) →
          GetLine (some r) = .ok "")) ∧
    (IsKnown (some a) = false → (∀ c ∈ cs, IsKnown c.Position = false) →
      PopulateAnnotationPositionFromNode (some a) (some n) cs
        = .ok { a with file := n.file, line := "" }) ∧
    (IsKnown (some a) = false → (∃ c ∈ cs, IsKnown c.Position = true) →
      PopulateAnnotationPositionFromNode (some a) (some n) cs
        = .error (.panic "Position is unknown")) := by
  refine ⟨?_, ?_, ?_⟩
  · intro N ha
    refine ⟨_, PopulateAnnotationPositionFromNode_eq a n N cs ha hcs, ?_⟩
    intro hno
    have hnone : ∀ c ∈ cs, matchesLine N c = false := by
      intro c hc
      cases hm : matchesLine N c with
      | false => rfl
      | true => exact absurd ((matchesLine_iff N c).mp hm) (hno c hc)
    simp only [GetLine]
    rw [scanComments_no_match N _ cs "" hnone]
  · intro _ hall
    unfold PopulateAnnotationPositionFromNode
    cases hk : IsKnown (some n) <;>
      simp only [hk, if_true, Bool.false_eq_true, if_false, GetLine, bind, Except.bind, pure,
        Except.pure, populateLoop_all_unknown (some a) _ cs hall, GetFile, SetFile, SetLine]
  · intro ha hsome
    unfold PopulateAnnotationPositionFromNode
    cases hk : IsKnown (some n) <;>
      simp only [hk, if_true, Bool.false_eq_true, if_false, GetLine, bind, Except.bind, pure,
        Except.pure, populateLoop_unknown_annotation (some a) ha _ cs hcs hsome]

/-- Instance of `PopulateAnnotationPositionFromNode_total` at a known annotation of line 5
and at an unknown annotation, with the comment `" note"` of line 7 or of an unknown
Position. -/
theorem PopulateAnnotationPositionFromNode_total_witness :
    (∃ r, PopulateAnnotationPositionFromNode (some { lineNum := some 5, known := true })
        (some { line := "  foo:" })
        [{ Data := " note", Position := some { lineNum := some 7, known := true } }] = .ok r ∧
      GetLine (some r) = .ok "") ∧
    PopulateAnnotationPositionFromNode (some { line := "old" }) (some { file := "f.yml" })
        [{ Data := " note", Position := some { } }, { Data := " nil", Position := none }]
      = .ok { file := "f.yml", line := "" } ∧
    PopulateAnnotationPositionFromNode (some { line := "old" }) (some { file := "f.yml" })
        [{ Data := " note", Position := some { lineNum := some 7, known := true } }]
      = .error (.panic "Position is unknown") := by
  have h7 : ∀ c ∈ [({ Data := " note", Position := some { lineNum := some 7, known := true } } : Meta)],
      Initialized c.Position := by
    intro c hc
    rw [List.mem_singleton] at hc
    subst hc
    exact fun _ => ⟨7, rfl⟩
  have hu : ∀ c ∈ [({ Data := " note", Position := some { } } : Meta),
      { Data := " nil", Position := none }], Initialized c.Position := by
    intro c hc
    simp only [List.mem_cons, List.mem_singleton, List.not_mem_nil, or_false] at hc
    rcases hc with rfl | rfl <;> exact fun h => by cases h
  refine ⟨?_, ?_, ?_⟩
  · obtain ⟨r, hr, hline⟩ :=
      (PopulateAnnotationPositionFromNode_total { lineNum := some 5, known := true }
        { line := "  foo:" } _ h7).1 5 rfl
    refine ⟨r, hr, hline ?_⟩
    intro c hc
    rw [List.mem_singleton] at hc
    subst hc
    decide
  · exact (PopulateAnnotationPositionFromNode_total { line := "old" } { file := "f.yml" } _
      hu).2.1 rfl (by
        intro c hc
        simp only [List.mem_cons, List.mem_singleton, List.not_mem_nil, or_false] at hc
        rcases hc with rfl | rfl <;> rfl)
  · exact (PopulateAnnotationPositionFromNode_total { line := "old" } { file := "f.yml" } _
      h7).2.2 rfl ⟨_, List.mem_singleton.mpr rfl, rfl⟩

/-! ## Invariants of the obtained Positions -/

theorem DeepCopy_some (p : Position) :
    DeepCopy (some p) =
      some { lineNum := p.lineNum, file := p.file, line := p.line, known := p.known } := by
  cases hl : p.lineNum <;> simp [DeepCopy, hl]

theorem PopulateAnnotationPositionFromNode_fields (a r : Position) (n : Option Position)
    (cs : List Meta) (h : PopulateAnnotationPositionFromNode (some a) n cs = .ok r) :
    r.lineNum = a.lineNum ∧ r.known = a.known ∧ r.fromMemory = a.fromMemory := by
  cases n with
  | none =>
    simp only [PopulateAnnotationPositionFromNode, IsKnown, GetFile, bind, Except.bind, pure,
      Except.pure, Bool.false_eq_true, if_false] at h
    split at h <;> cases h
  | some n' =>
    cases hk : n'.known <;>
      simp only [PopulateAnnotationPositionFromNode, IsKnown, hk, GetLine, GetFile, SetFile,
        SetLine, bind, Except.bind, pure, Except.pure, Bool.false_eq_true, if_false,
        if_true] at h <;>
      split at h <;> cases h <;> exact ⟨rfl, rfl, rfl⟩

theorem DeepCopyWithLineOffset_ok_nonneg (p : Option Position) (k : Int) (q : Position)
    (h : DeepCopyWithLineOffset p k = .ok q) : 0 ≤ k := by
  unfold DeepCopyWithLineOffset at h
  split at h
  · cases h
  · split at h
    · cases h
    · omega

theorem NewPosition_ok (n : Int) (p : Position) (h : NewPosition n = .ok p) :
    1 ≤ n ∧ p = { lineNum := some n, known := true } := by
  unfold NewPosition at h
  split at h
  · cases h
  · cases h
    exact ⟨by omega, rfl⟩

theorem Obtained_fields (fits : Int → Int → Prop) (p : Position) (h : Obtained fits p) :
    (p.lineNum.isSome = true ↔ p.known = true) := by
  induction h with
  | newPosition n p _ hp =>
    rw [(NewPosition_ok n p hp).2]
    simp
  | newUnknown => simp [NewUnknownPosition]
  | keyVal isPrint k v separator => simp [NewUnknownPositionWithKeyVal]
  | setFile p q file _ hq ih =>
    simp only [SetFile] at hq
    cases hq
    exact ih
  | setLine p q line _ hq ih =>
    simp only [SetLine] at hq
    cases hq
    exact ih
  | deepCopy p q _ hq ih =>
    rw [DeepCopy_some] at hq
    cases hq
    exact ih
  | offset p q n k _ _ hn _ hq ih =>
    rw [DeepCopyWithLineOffset_known p n k hn (DeepCopyWithLineOffset_ok_nonneg _ _ _ hq)] at hq
    cases hq
    simp
  | populate a r n cs _ hr ih =>
    obtain ⟨h1, h2, _⟩ := PopulateAnnotationPositionFromNode_fields a r n cs hr
    rw [h1, h2]
    exact ih

theorem Obtained_oneBased (p : Position) (h : Obtained noWrap p) :
    p.known = true → ∃ n : Int, p.lineNum = some n ∧ 1 ≤ n ∧ n ≤ maxInt := by
  induction h with
  | newPosition n p hn hp =>
    obtain ⟨h1, h2⟩ := NewPosition_ok n p hp
    rw [h2]
    exact fun _ => ⟨n, rfl, h1, hn⟩
  | newUnknown => intro h; cases h
  | keyVal isPrint k v separator => intro h; cases h
  | setFile p q file _ hq ih =>
    simp only [SetFile] at hq
    cases hq
    exact ih
  | setLine p q line _ hq ih =>
    simp only [SetLine] at hq
    cases hq
    exact ih
  | deepCopy p q _ hq ih =>
    rw [DeepCopy_some] at hq
    cases hq
    exact ih
  | offset p q n k _ _ hn hfit hq ih =>
    have hk := DeepCopyWithLineOffset_ok_nonneg _ _ _ hq
    rw [DeepCopyWithLineOffset_known p n k hn hk] at hq
    cases hq
    obtain ⟨_, hp1, hpk, hpl⟩ := (LineNum_ok_iff (some p) n).mp hn
    cases hp1
    obtain ⟨m, hm, hm1, hm2⟩ := ih hpk
    rw [hpl] at hm
    cases hm
    intro _
    have hfit' : n + k ≤ maxInt := hfit
    refine ⟨n + k, ?_, by omega, hfit'⟩
    rw [wrapInt_eq_self (n + k) (by unfold minInt; omega) hfit']
  | populate a r n cs _ hr ih =>
    obtain ⟨h1, h2, _⟩ := PopulateAnnotationPositionFromNode_fields a r n cs hr
    rw [h1, h2]
    exact ih

/-- C16: the internal-consistency fault is unreachable.  Every Position obtained from
`NewPosition`, `NewUnknownPosition` or `NewUnknownPositionWithKeyVal` by any sequence of
`SetFile`, `SetLine`, `DeepCopy`, `DeepCopyWithLineOffset` (any accepted offset) and
`PopulateAnnotationPositionFromNode` holds a line number iff its known flag is true;
so `LineNum()` panics on it exactly when `IsKnown()` is false, and never with "Position
was not properly initialized". -/
theorem Obtained_initialized (p : Position) (h : Obtained anyOffset p) :
    (p.lineNum.isSome = true ↔ p.known = true) ∧
    ((∃ e, LineNum (some p) = .error e) ↔ IsKnown (some p) = false) ∧
    LineNum (some p) ≠ .error (.panic "Position was not properly initialized") := by
  have hf := Obtained_fields anyOffset p h
  refine ⟨hf, ?_, ?_⟩
  · cases hk : p.known with
    | false =>
      simp only [IsKnown, hk, iff_true]
      exact ⟨_, LineNum_unknown (some p) (by simp [IsKnown, hk])⟩
    | true =>
      obtain ⟨n, hn⟩ := Option.isSome_iff_exists.mp (hf.mpr hk)
      simp only [IsKnown, hk, Bool.true_eq_false, iff_false, not_exists]
      intro e he
      rw [LineNum_some_ok p n hk hn] at he
      cases he
  · cases hk : p.known with
    | false =>
      rw [LineNum_unknown (some p) (by simp [IsKnown, hk])]
      decide
    | true =>
      obtain ⟨n, hn⟩ := Option.isSome_iff_exists.mp (hf.mpr hk)
      rw [LineNum_some_ok p n hk hn]
      intro he
      cases he

/-- Instance of `Obtained_initialized` at the copy with offset 3 of the Position of line
5 to which file `a` was attached. -/
theorem Obtained_initialized_witness :
    Obtained anyOffset { lineNum := some 8, file := "a", known := true } ∧
    LineNum (some { lineNum := some 8, file := "a", known := true })
      ≠ .error (.panic "Position was not properly initialized") :=
  have h : Obtained anyOffset { lineNum := some 8, file := "a", known := true } :=
    Obtained.offset { lineNum := some 5, file := "a", known := true } _ 5 3
      (Obtained.setFile { lineNum := some 5, known := true } _ "a"
        (Obtained.newPosition 5 _ (by decide) rfl) rfl)
      (by decide) rfl trivial (by decide)
  ⟨h, (Obtained_initialized _ h).2.2⟩

/-- C14 (as stated, refuted): the copy with offset 1 of the Position of the largest `int`
line is obtained through the exported functions, is known, and has the line number
-9223372036854775808, which is not at least 1. -/
theorem Obtained_negative_line :
    Obtained anyOffset { lineNum := some (-9223372036854775808), known := true } ∧
    IsKnown (some { lineNum := some (-9223372036854775808), known := true }) = true ∧
    LineNum (some { lineNum := some (-9223372036854775808), known := true })
      = .ok (-9223372036854775808) ∧
    ¬ (1 ≤ (-9223372036854775808 : Int)) :=
  ⟨Obtained.offset { lineNum := some 9223372036854775807, known := true } _
      9223372036854775807 1
      (Obtained.newPosition 9223372036854775807 _ (by decide) (by decide))
      (by decide) (by decide) trivial (by decide),
    by decide, by decide, by decide⟩

/-- C14 (amended): every Position obtained from `NewPosition`, `NewUnknownPosition` or
`NewUnknownPositionWithKeyVal` by any sequence of `SetFile`, `SetLine`, `DeepCopy`,
`PopulateAnnotationPositionFromNode` and `DeepCopyWithLineOffset` with offsets whose
sum with the line number does not exceed the largest `int` satisfies: if `IsKnown()` is
true then `LineNum()` returns a line number that is at least 1. -/
theorem Obtained_positive (p : Position) (h : Obtained noWrap p)
    (hk : IsKnown (some p) = true) :
    ∃ n : Int, LineNum (some p) = .ok n ∧ 1 ≤ n ∧ n ≤ maxInt := by
  obtain ⟨n, hn, h1, h2⟩ := Obtained_oneBased p h hk
  exact ⟨n, LineNum_some_ok p n hk hn, h1, h2⟩

/-- Instance of `Obtained_positive` at the copy with offset 3 of the Position of line 5. -/
theorem Obtained_positive_witness :
    Obtained noWrap { lineNum := some 8, known := true } ∧
    IsKnown (some { lineNum := some 8, known := true }) = true ∧
    ∃ n : Int, LineNum (some { lineNum := some 8, known := true }) = .ok n ∧ 1 ≤ n ∧
      n ≤ maxInt :=
  have h : Obtained noWrap { lineNum := some 8, known := true } :=
    Obtained.offset { lineNum := some 5, known := true } _ 5 3
      (Obtained.newPosition 5 _ (by decide) rfl) (by decide) rfl
      (show (5 : Int) + 3 ≤ maxInt by decide) (by decide)
  ⟨h, rfl, Obtained_positive _ h rfl⟩

/-! ## Copies in memory -/

theorem Store.view_writeCell_ne (s : Store) (a b : Nat) (c : Cell) (h : b ≠ a) :
    (s.writeCell a c).view (some b) = s.view (some b) := by
  simp [Store.view, Store.writeCell, h]

theorem Ref_DeepCopy_some (s : Store) (a : Nat) (ha : a < s.nextCell)
    (hi : ∀ i, (s.cells a).lineNum = some i → i < s.nextInt) :
    (Ref.DeepCopy s (some a)).2 = some s.nextCell ∧
    (Ref.DeepCopy s (some a)).1.view (some a) = s.view (some a) ∧
    (Ref.DeepCopy s (some a)).1.view (some s.nextCell) = DeepCopy (s.view (some a)) ∧
    (∀ i, (s.cells a).lineNum = some i →
      ((Ref.DeepCopy s (some a)).1.cells s.nextCell).lineNum = some s.nextInt ∧
      (Ref.DeepCopy s (some a)).1.ints i = s.ints i ∧
      (Ref.DeepCopy s (some a)).1.ints s.nextInt = s.ints i) ∧
    (∀ b, b ≠ s.nextCell → (Ref.DeepCopy s (some a)).1.cells b = s.cells b) := by
  have hne : a ≠ s.nextCell := by omega
  cases hl : (s.cells a).lineNum with
  | none =>
    refine ⟨?_, ?_, ?_, ?_, ?_⟩
    · simp [Ref.DeepCopy, hl]
    · simp [Ref.DeepCopy, hl, Store.view, Store.allocCell, hne]
    · simp [Ref.DeepCopy, hl, Store.view, Store.allocCell, DeepCopy]
    · intro i h; cases h
    · intro b hb
      simp [Ref.DeepCopy, hl, Store.allocCell, hb]
  | some i =>
    have hi' : i ≠ s.nextInt := by
      have := hi i hl
      omega
    refine ⟨?_, ?_, ?_, ?_, ?_⟩
    · simp [Ref.DeepCopy, hl]
    · simp [Ref.DeepCopy, hl, Store.view, Store.allocCell, Store.allocInt, Store.writeCell, hne,
        hi']
    · simp [Ref.DeepCopy, hl, Store.view, Store.allocCell, Store.allocInt, Store.writeCell,
        DeepCopy]
    · intro i' h
      cases h
      simp [Ref.DeepCopy, hl, Store.allocCell, Store.allocInt, Store.writeCell, hi']
    · intro b hb
      simp [Ref.DeepCopy, hl, Store.allocCell, Store.allocInt, Store.writeCell, hb]

theorem Store.view_writeInt (s : Store) (a j : Nat) (v : Int)
    (h : (s.cells a).lineNum ≠ some j) :
    (s.writeInt j v).view (some a) = s.view (some a) := by
  cases hl : (s.cells a).lineNum with
  | none => simp [Store.view, Store.writeInt, hl]
  | some i =>
    have hij : i ≠ j := by
      intro e
      rw [hl, e] at h
      exact h rfl
    simp [Store.view, Store.writeInt, hl, hij]

theorem Store.view_lineNum (s : Store) (a : Nat) (N : Int)
    (h : LineNum (s.view (some a)) = .ok N) :
    (s.cells a).known = true ∧ ∃ i, (s.cells a).lineNum = some i ∧ s.ints i = N := by
  obtain ⟨q, hq, hqk, hql⟩ := (LineNum_ok_iff _ N).mp h
  simp only [Store.view, Option.some.injEq] at hq
  subst hq
  refine ⟨hqk, ?_⟩
  simp only [Option.map_eq_some'] at hql
  exact hql

theorem Ref_DeepCopyWithLineOffset_known (s : Store) (a : Nat) (k N : Int)
    (ha : a < s.nextCell) (hi : ∀ i, (s.cells a).lineNum = some i → i < s.nextInt)
    (hN : LineNum (s.view (some a)) = .ok N) (hk : 0 ≤ k) :
    Ref.DeepCopyWithLineOffset s (some a) k =
      .ok ((Ref.DeepCopy s (some a)).1.writeInt s.nextInt (wrapInt (N + k)),
        some s.nextCell) := by
  obtain ⟨hkn, i, hl, hv⟩ := Store.view_lineNum s a N hN
  obtain ⟨h2, _, _, hint, _⟩ := Ref_DeepCopy_some s a ha hi
  obtain ⟨hj, _, hval⟩ := hint i hl
  have hneg : ¬ k < 0 := by omega
  have hknown : IsKnown (s.view (some a)) = true := known_of_LineNum _ N hN
  unfold Ref.DeepCopyWithLineOffset
  simp only [hknown, Bool.not_true, Bool.false_eq_true, if_false, hneg, h2, hj, hval, hv]

/-- C15: a copy owns its line number.  For a known Position at address `a` (allocated,
as is its `int` cell) and `k ≥ 0`, `DeepCopyWithLineOffset(k)` returns a new address `q`
whose `int` cell is not the one of `a` and holds the line number plus `k` (as an `int`);
after the call `LineNum()`, `GetFile()` and `GetLine()` of `a` are what they were, and
they still are after `SetFile` or `SetLine` on `q`; the same holds for `DeepCopy()` and
the setters applied to its result. -/
theorem Ref_DeepCopyWithLineOffset_independent (s : Store) (a : Nat) (k N : Int)
    (file line : String) (ha : a < s.nextCell)
    (hi : ∀ i, (s.cells a).lineNum = some i → i < s.nextInt)
    (hN : LineNum (s.view (some a)) = .ok N) (hk : 0 ≤ k) :
    (∃ s1 q, Ref.DeepCopyWithLineOffset s (some a) k = .ok (s1, some q) ∧ q ≠ a ∧
      (s1.cells q).lineNum ≠ (s.cells a).lineNum ∧
      LineNum (s1.view (some q)) = .ok (wrapInt (N + k)) ∧
      LineNum (s1.view (some a)) = .ok N ∧
      GetFile (s1.view (some a)) = GetFile (s.view (some a)) ∧
      GetLine (s1.view (some a)) = GetLine (s.view (some a)) ∧
      s1.view (some a) = s.view (some a) ∧
      (∃ s2, Ref.SetFile s1 (some q) file = .ok s2 ∧ s2.view (some a) = s.view (some a)) ∧
      (∃ s2, Ref.SetLine s1 (some q) line = .ok s2 ∧ s2.view (some a) = s.view (some a))) ∧
    (∃ s1 q, Ref.DeepCopy s (some a) = (s1, some q) ∧ q ≠ a ∧
      s1.view (some a) = s.view (some a) ∧
      (∃ s2, Ref.SetFile s1 (some q) file = .ok s2 ∧ s2.view (some a) = s.view (some a)) ∧
      (∃ s2, Ref.SetLine s1 (some q) line = .ok s2 ∧ s2.view (some a) = s.view (some a))) := by
  obtain ⟨hkn, i, hl, hv⟩ := Store.view_lineNum s a N hN
  obtain ⟨h2, hva, hvq, hint, hframe⟩ := Ref_DeepCopy_some s a ha hi
  obtain ⟨hj, _, hval⟩ := hint i hl
  have hne : s.nextCell ≠ a := by omega
  have hil : i < s.nextInt := hi i hl
  have hcella : ((Ref.DeepCopy s (some a)).1.cells a).lineNum ≠ some s.nextInt := by
    rw [hframe a (by omega), hl]
    intro e
    cases e
    omega
  have hview1 : ((Ref.DeepCopy s (some a)).1.writeInt s.nextInt (wrapInt (N + k))).view (some a)
      = s.view (some a) := by
    rw [Store.view_writeInt _ _ _ _ hcella, hva]
  constructor
  · refine ⟨_, s.nextCell, Ref_DeepCopyWithLineOffset_known s a k N ha hi hN hk, hne, ?_, ?_,
      ?_, ?_, ?_, hview1, ?_, ?_⟩
    · show ((Ref.DeepCopy s (some a)).1.cells s.nextCell).lineNum ≠ (s.cells a).lineNum
      rw [hj, hl]
      intro e
      cases e
      omega
    · simp only [Store.view, Store.writeInt, hj, Option.map_some', if_true, LineNum, IsKnown]
      have : ((Ref.DeepCopy s (some a)).1.view (some s.nextCell)) = DeepCopy (s.view (some a)) :=
        hvq
      simp only [Store.view, DeepCopy_some, Option.some.injEq, Position.mk.injEq] at this
      simp [this.2.2.2.1, hkn]
    · rw [hview1]; exact hN
    · rw [hview1]
    · rw [hview1]
    · exact ⟨_, rfl, by rw [Store.view_writeCell_ne _ _ _ _ (Ne.symm hne), hview1]⟩
    · exact ⟨_, rfl, by rw [Store.view_writeCell_ne _ _ _ _ (Ne.symm hne), hview1]⟩
  · refine ⟨(Ref.DeepCopy s (some a)).1, s.nextCell, ?_, hne, hva, ?_, ?_⟩
    · rw [← h2]
    · exact ⟨_, rfl, by rw [Store.view_writeCell_ne _ _ _ _ (Ne.symm hne), hva]⟩
    · exact ⟨_, rfl, by rw [Store.view_writeCell_ne _ _ _ _ (Ne.symm hne), hva]⟩

/-- Instance of `Ref_DeepCopyWithLineOffset_independent` at the Position of line 5 held at
address 0, copied with offset 3. -/
theorem Ref_DeepCopyWithLineOffset_independent_witness :
    ∃ s1 q, Ref.DeepCopyWithLineOffset Store.lineFive (some 0) 3 = .ok (s1, some q) ∧ q ≠ 0 ∧
      (s1.cells q).lineNum ≠ (Store.lineFive.cells 0).lineNum ∧
      LineNum (s1.view (some q)) = .ok 8 ∧
      LineNum (s1.view (some 0)) = .ok 5 ∧
      s1.view (some 0) = Store.lineFive.view (some 0) ∧
      (∃ s2, Ref.SetFile s1 (some q) "b" = .ok s2 ∧
        s2.view (some 0) = Store.lineFive.view (some 0)) ∧
      (∃ s2, Ref.SetLine s1 (some q) "new" = .ok s2 ∧
        s2.view (some 0) = Store.lineFive.view (some 0)) := by
  obtain ⟨s1, q, h1, h2, h3, h4, h5, _, _, h8, h9, h10⟩ :=
    (Ref_DeepCopyWithLineOffset_independent Store.lineFive 0 3 5 "b" "new" (by decide)
      (fun i h => by
        have h' : some 0 = some i := h
        cases h'
        decide)
      (by decide) (by decide)).1
  exact ⟨s1, q, h1, h2, h3, h4, h5, h8, h9, h10⟩

/-! ## What the approximation writes -/

theorem Ref_PopulateAnnotationPositionFromNode_eq (s : Store) (pa pn : Nat)
    (cs : List MetaRef) (N : Int) (ha : LineNum (s.view (some pa)) = .ok N)
    (hcs : ∀ c ∈ cs, Initialized (s.view c.Position)) :
    Ref.PopulateAnnotationPositionFromNode s (some pa) (some pn) cs =
      .ok (s.writeCell pa { s.cells pa with
        file := (s.cells pn).file
        line := scanComments N
          (if (s.cells pn).known = true then leadingSpaces (s.cells pn).line else 0)
          (cs.map s.viewMeta) "" }, some pa) := by
  have hcs' : ∀ c ∈ cs.map s.viewMeta, Initialized c.Position := by
    intro c hc
    obtain ⟨d, hd, rfl⟩ := List.mem_map.mp hc
    exact hcs d hd
  have hw : ∀ (c1 c2 : Cell), (s.writeCell pa c1).writeCell pa c2 = s.writeCell pa c2 := by
    intro c1 c2
    simp only [Store.writeCell, Store.mk.injEq, true_and, and_true]
    funext x
    by_cases hx : x = pa <;> simp [hx]
  have hkn : IsKnown (s.view (some pn)) = (s.cells pn).known := rfl
  have hgl : GetLine (s.view (some pn)) = .ok (s.cells pn).line := rfl
  have hgf : GetFile (s.view (some pn)) = .ok (s.cells pn).file := rfl
  unfold Ref.PopulateAnnotationPositionFromNode
  cases hk : (s.cells pn).known with
  | true =>
    simp only [hkn, hgl, hgf, hk, if_true, bind, Except.bind, pure, Except.pure,
      leftPadding_eq, populateLoop_eq (s.view (some pa)) N ha _ _ hcs', Ref.SetFile,
      Ref.SetLine, hw]
    simp [Store.writeCell]
  | false =>
    have h0 : (0 : Int) = ((0 : Nat) : Int) := rfl
    simp only [hkn, hgl, hgf, hk, Bool.false_eq_true, if_false, bind, Except.bind, pure,
      Except.pure, Ref.SetFile, Ref.SetLine]
    rw [h0, populateLoop_eq (s.view (some pa)) N ha _ _ hcs']
    simp only [hw]
    simp [Store.writeCell]

/-- C11 (as stated, refuted): when the pointer passed as the node is the pointer passed
as the annotation, the node Position is modified: its line text `old` is replaced by the
empty string. -/
theorem Ref_PopulateAnnotationPositionFromNode_aliased_node :
    GetLine (Store.lineFive.view (some 0)) = .ok "old" ∧
    (Ref.PopulateAnnotationPositionFromNode Store.lineFive (some 0) (some 0) []).map
        (fun x => (GetLine (x.1.view (some 0)), x.2))
      = .ok (.ok "", some 0) := by
  decide

/-- C11 (amended): `PopulateAnnotationPositionFromNode` writes only the file and the line
text of the annotation Position.  For a known annotation Position at address `pa`, a
node Position at address `pn` and comments with initialized Positions, the call returns
the pointer `pa` itself; afterwards `GetFile()` of `pa` is the file the node had, its
line text is the rendered string whatever it was before (the empty string replaces `old`
when nothing matches), `IsKnown()`, `LineNum()` and `FromMemory()` of `pa` are unchanged,
and nothing else in memory is written: every other Position cell and every `int` cell
is unchanged and nothing is allocated, so the node and the comments' Positions are not
modified unless they are the annotation Position itself. -/
theorem Ref_PopulateAnnotationPositionFromNode_frame (s : Store) (pa pn : Nat)
    (cs : List MetaRef) (N : Int) (ha : LineNum (s.view (some pa)) = .ok N)
    (hcs : ∀ c ∈ cs, Initialized (s.view c.Position)) :
    (∃ s1 r, Ref.PopulateAnnotationPositionFromNode s (some pa) (some pn) cs
        = .ok (s1, some pa) ∧
      PopulateAnnotationPositionFromNode (s.view (some pa)) (s.view (some pn))
        (cs.map s.viewMeta) = .ok r ∧
      s1.view (some pa) = some r ∧
      GetFile (s1.view (some pa)) = GetFile (s.view (some pn)) ∧
      GetLine (s1.view (some pa)) = .ok (scanComments N
        (if IsKnown (s.view (some pn)) = true then leadingSpaces (s.cells pn).line else 0)
        (cs.map s.viewMeta) "") ∧
      IsKnown (s1.view (some pa)) = IsKnown (s.view (some pa)) ∧
      LineNum (s1.view (some pa)) = LineNum (s.view (some pa)) ∧
      FromMemory (s1.view (some pa)) = FromMemory (s.view (some pa)) ∧
      (s1.cells pa).lineNum = (s.cells pa).lineNum ∧
      (∀ q, q ≠ pa → s1.cells q = s.cells q) ∧
      s1.ints = s.ints ∧ s1.nextInt = s.nextInt ∧ s1.nextCell = s.nextCell ∧
      (pn ≠ pa → s1.view (some pn) = s.view (some pn)) ∧
      (∀ c ∈ cs, c.Position ≠ some pa → s1.view c.Position = s.view c.Position)) ∧
    (Ref.PopulateAnnotationPositionFromNode Store.lineFive (some 0) (some 1)
        [{ Data := " note", Position := none }]).map (fun x => (x.1.view x.2, x.2))
      = .ok (some { lineNum := some 5, file := "", line := "", known := true }, some 0) := by
  refine ⟨?_, by decide⟩
  have hcs' : ∀ c ∈ cs.map s.viewMeta, Initialized c.Position := by
    intro c hc
    obtain ⟨d, hd, rfl⟩ := List.mem_map.mp hc
    exact hcs d hd
  obtain ⟨_, hp, _, _⟩ := (LineNum_ok_iff _ N).mp ha
  have hval := PopulateAnnotationPositionFromNode_eq
    { lineNum := (s.cells pa).lineNum.map s.ints, file := (s.cells pa).file,
      line := (s.cells pa).line, known := (s.cells pa).known,
      fromMemory := (s.cells pa).fromMemory }
    { lineNum := (s.cells pn).lineNum.map s.ints, file := (s.cells pn).file,
      line := (s.cells pn).line, known := (s.cells pn).known,
      fromMemory := (s.cells pn).fromMemory } N (cs.map s.viewMeta) ha hcs'
  have hframe : ∀ q, q ≠ pa → ∀ c : Cell, (s.writeCell pa c).view (some q) = s.view (some q) :=
    fun q hq c => Store.view_writeCell_ne s pa q c hq
  refine ⟨_, _, Ref_PopulateAnnotationPositionFromNode_eq s pa pn cs N ha hcs, hval, ?_, ?_, ?_,
    ?_, ?_, ?_, ?_, ?_, rfl, rfl, rfl, ?_, ?_⟩
  · simp [Store.view, Store.writeCell]
  · simp [Store.view, Store.writeCell, GetFile]
  · simp [Store.view, Store.writeCell, GetLine, IsKnown]
  · simp [Store.view, Store.writeCell, IsKnown]
  · simp [Store.view, Store.writeCell, LineNum, IsKnown]
  · simp [Store.view, Store.writeCell, FromMemory]
  · simp [Store.writeCell]
  · intro q hq
    simp [Store.writeCell, hq]
  · intro h
    exact hframe pn h _
  · intro c _ hc
    cases hp' : c.Position with
    | none => rfl
    | some q =>
      have hq : q ≠ pa := by
        intro e
        rw [hp', e] at hc
        exact hc rfl
      exact hframe q hq _

/-- Instance of `Ref_PopulateAnnotationPositionFromNode_frame` at the annotation held at
address 0 (line 5, line text `old`), a node at another address and no matching comment:
the pointer 0 is returned and the line text of the annotation becomes empty. -/
theorem Ref_PopulateAnnotationPositionFromNode_frame_witness :
    ∃ s1, Ref.PopulateAnnotationPositionFromNode Store.lineFive (some 0) (some 1)
        [{ Data := " note", Position := some 1 }] = .ok (s1, some 0) ∧
      GetFile (s1.view (some 0)) = GetFile (Store.lineFive.view (some 1)) ∧
      GetLine (s1.view (some 0)) = .ok "" ∧
      LineNum (s1.view (some 0)) = .ok 5 ∧
      s1.view (some 1) = Store.lineFive.view (some 1) := by
  obtain ⟨s1, r, h1, _, _, h4, h5, _, h7, _, _, _, _, _, _, h14, _⟩ :=
    (Ref_PopulateAnnotationPositionFromNode_frame Store.lineFive 0 1
      [{ Data := " note", Position := some 1 }] 5 (by decide)
      (fun c hc => by
        rw [List.mem_singleton] at hc
        subst hc
        exact fun h => by cases h)).1
  refine ⟨s1, h1, h4, ?_, ?_, h14 (by decide)⟩
  · rw [h5]
    decide
  · rw [h7]
    decide

end Filepos
